import Mathlib

/-!
# Token-bucket admission control (`internal/rate_limiter.go`, `main.go`)

A shallow embedding of the rate limiter of the ingestion service.

Modelling conventions.

* Two versions of the arithmetic are given.  The definitions of namespace
  `internal` take every `float64` operation as exact, on rationals `ℚ`; they
  carry the statements that do not depend on rounding.  Namespace
  `internal.float64` repeats `allowLocal`, the Lua script and `allowRedis` with
  every operation rounded to binary64 (round to nearest, ties to even,
  subnormals included); its values are the rationals that are binary64 values.
  Infinities and NaN are not modelled.
* An instant (`time.Time`) is the clock reading in nanoseconds, an `Int`.
  `now.Sub(u)` is the difference of two readings (a `time.Duration`, in
  nanoseconds).  The reading taken by `time.Now()` is an explicit argument of
  every operation that reads the clock; in the running program two successive
  readings never decrease, and statements about sequences of calls say so.  One
  reading serves as the monotonic reading used by `Sub` and as the wall-clock
  reading sent to the script: the two clocks are taken to advance together.
  Readings are taken close enough for their difference to fit a `Duration`
  (about 292 years); the saturation of `Sub` beyond that is not modelled.
* A Go map is a function into `Option`; a nil pointer is `none`.
* The mutex of the limiter serialises `allowLocal`; the embedding is
  sequential, one call is one function application.
* The Redis server is a key/value function whose values are read through
  `tonumber`; numbers pass between the client, the script and the keyspace
  unchanged; whether the transport of an `EVAL` succeeds is an explicit Boolean
  argument.
-/

namespace internal

/-! ## Data model -/

/-- Budget of one API key (`type APIKeyConfig struct`). -/
structure APIKeyConfig where
  /-- Tokens per minute. -/
  RatePerMin : ℚ
  /-- Max tokens. -/
  Capacity : ℚ
  deriving DecidableEq

/-- Whitelisted API keys (`var APIKeys = map[string]APIKeyConfig{...}`). -/
def APIKeys (key : String) : Option APIKeyConfig :=
  if key = "iot-node-satoshi" then some ⟨100, 100⟩
  else if key = "iot-node-nakamoto" then some ⟨200, 200⟩
  else none

/-- An instant: clock reading in nanoseconds. -/
abbrev Time := Int

/-- Nanoseconds between two instants (`t.Sub(u)`). -/
def Time.Sub (t u : Time) : Int := t - u

/-- Length of a duration in seconds (`Duration.Seconds`), in exact
arithmetic. -/
def Seconds (d : Int) : ℚ := (d : ℚ) / 1000000000

/-- State of one bucket (`type TokenBucket struct`). -/
structure TokenBucket where
  Tokens : ℚ
  LastUpdated : Time
  deriving DecidableEq

/-- The limiter object (`type RateLimiter struct`): the map from key to
bucket.  The mutex `mu` only serialises `allowLocal` and carries no data. -/
structure RateLimiter where
  «local» : String → Option TokenBucket

/-- Replace the bucket stored under `key` (`rl.local[key] = &tb`, and the
writes through the pointer `tb`). -/
def RateLimiter.store (rl : RateLimiter) (key : String) (tb : TokenBucket) : RateLimiter :=
  ⟨fun k => if k = key then some tb else rl.«local» k⟩

/-- The helper `min` of the source: `if a < b { return a }; return b`. -/
def min (a b : ℚ) : ℚ := if a < b then a else b

/-! ## In-memory limiter -/

/-- The method `allowLocal` on a non-nil limiter, reading the clock as `now`:
the decision and the limiter afterwards.  Exact arithmetic; `float64.allowLocal`
rounds. -/
def allowLocal (rl : RateLimiter) (key : String) (cfg : APIKeyConfig) (now : Time) :
    Bool × RateLimiter :=
  match rl.«local» key with
  | none => (true, rl.store key ⟨cfg.Capacity - 1, now⟩)
  | some tb =>
    -- refill tokens
    let delta := Seconds (Time.Sub now tb.LastUpdated)
    let tokens := internal.min cfg.Capacity (tb.Tokens + delta * cfg.RatePerMin / 60)
    if tokens < 1 then
      (false, rl.store key ⟨tokens, now⟩)
    else
      (true, rl.store key ⟨tokens - 1, now⟩)

/-- One `allowLocal` call of a test driver: key, policy and clock reading. -/
structure Call where
  key : String
  cfg : APIKeyConfig
  now : Time

/-- Issue the calls in order on the in-memory limiter: the decisions, in order,
and the limiter afterwards. -/
def runLocal (rl : RateLimiter) : List Call → List Bool × RateLimiter
  | [] => ([], rl)
  | c :: cs =>
    ((allowLocal rl c.key c.cfg c.now).1 :: (runLocal (allowLocal rl c.key c.cfg c.now).2 cs).1,
      (runLocal (allowLocal rl c.key c.cfg c.now).2 cs).2)

/-! ## Shared store -/

/-- Numeric view of the Redis keyspace: what `tonumber(redis.call("GET", k))`
yields, `none` for Lua `nil`. -/
abbrev RedisStore := String → Option ℚ

/-- The command `SET k v`. -/
def RedisStore.SET (kv : RedisStore) (k : String) (v : ℚ) : RedisStore :=
  fun x => if x = k then some v else kv x

/-- Why `Eval(...).Result()` returned `err != nil`. -/
inductive EvalError where
  /-- Timeout or connection error. -/
  | transport
  /-- The script raised an error (arithmetic on `nil`). -/
  | script
  deriving DecidableEq

/-- The Lua script of `allowRedis`, run atomically by the server on `KEYS[1]`,
`KEYS[2]` and the numbers `ARGV[1..3]`: the integer reply and the keyspace
afterwards, or a script error (no command has been issued at that point). -/
def luaScript (kv : RedisStore) (key ts_key : String) (now rate capacity : ℚ) :
    Except EvalError (Int × RedisStore) :=
  let refillCharge (tokens last_ts : ℚ) : Except EvalError (Int × RedisStore) :=
    let delta := max 0 (now - last_ts)
    let tokens := Min.min capacity (tokens + delta * rate)
    if tokens < 1 then
      .ok (0, (kv.SET key tokens).SET ts_key now)
    else
      .ok (1, (kv.SET key (tokens - 1)).SET ts_key now)
  match kv key, kv ts_key with
  | none, _ => refillCharge capacity now
  | some tokens, some last_ts => refillCharge tokens last_ts
  | some _, none => .error .script

/-- The call `redisClient.Eval(ctx, script, keys, args...).Result()` on a
reachable or unreachable server. -/
def Eval (kv : RedisStore) (transportOk : Bool) (key ts_key : String)
    (now rate capacity : ℚ) : Except EvalError (Int × RedisStore) :=
  if transportOk then luaScript kv key ts_key now rate capacity else .error .transport

/-! ## Process state and the limiter's entry points -/

/-- Run-time panics of the Go code. -/
inductive Panic where
  /-- Nil pointer dereference. -/
  | nilDereference
  deriving DecidableEq

/-- A client handle (`*redis.Client`), made from a URL. -/
structure RedisClient where
  url : String
  deriving DecidableEq

/-- Package-level variables of `internal` together with the external server:
`rl` and `redisClient` are pointers (`none` is nil), `redis` is the server's
keyspace and `evalCalls` counts the `EVAL` commands the process has issued. -/
structure World where
  rl : Option RateLimiter
  redisClient : Option RedisClient
  redis : RedisStore
  evalCalls : Nat

/-- The method `allowRedis`; the receiver is never read.  The clock reading is
sent in seconds and the rate per second.  Exact arithmetic;
`float64.allowRedis` rounds. -/
def allowRedis (w : World) (key : String) (cfg : APIKeyConfig) (now : Time)
    (transportOk : Bool) : Except Panic (Bool × World) :=
  match w.redisClient with
  | none => .error .nilDereference
  | some _ =>
    match Eval w.redis transportOk ("rl:" ++ key) ("rl:" ++ key ++ ":ts")
        (Seconds now) (cfg.RatePerMin / 60) cfg.Capacity with
    | .error _ => .ok (false, { w with evalCalls := w.evalCalls + 1 })
    | .ok (res, kv) => .ok (res == 1, { w with redis := kv, evalCalls := w.evalCalls + 1 })

/-- The method `Allow`, invoked on the limiter pointer `w.rl`.  With a nil
receiver the first dereference is `rl.mu.Lock()` in `allowLocal`. -/
def Allow (w : World) (key : String) (now : Time) (transportOk : Bool) :
    Except Panic (Bool × World) :=
  match APIKeys key with
  | none => .ok (false, w) -- unknown key
  | some cfg =>
    match w.redisClient with
    | some _ => allowRedis w key cfg now transportOk
    | none =>
      match w.rl with
      | none => .error .nilDereference
      | some r =>
        .ok ((allowLocal r key cfg now).1, { w with rl := some (allowLocal r key cfg now).2 })

/-- The constructor `NewRateLimiter`: the new limiter, and the process state
afterwards (`redisClient` is set when a URL is given and reset to nil when the
ping fails).  The URL is taken to parse. -/
def NewRateLimiter (w : World) (redisURL : String) (pingOk : Bool) : RateLimiter × World :=
  let r : RateLimiter := ⟨fun _ => none⟩
  if redisURL ≠ "" then
    if pingOk then (r, { w with redisClient := some ⟨redisURL⟩ })
    else (r, { w with redisClient := none })
  else (r, w)

/-- Process state at start-up: package variables hold their zero values. -/
def startWorld (kv : RedisStore) : World := ⟨none, none, kv, 0⟩

/-- The part of `main` that sets the limiter up: the statement
`internal.NewRateLimiter(redisUrl)`, whose result is not assigned. -/
def mainSetup (w : World) (redisUrl : String) (pingOk : Bool) : World :=
  (NewRateLimiter w redisUrl pingOk).2

/-! ## Middleware -/

/-- A value held by a request context: a string or a value of another type. -/
inductive CtxValue where
  | str (s : String)
  | other
  deriving DecidableEq

/-- The parts of `*http.Request` the middleware reads or forwards. -/
structure Request where
  ctx : String → Option CtxValue
  body : String

/-- What the middleware does, in order. -/
inductive Effect where
  /-- The call `rl.Allow(key)`. -/
  | allow (key : String)
  /-- The call `http.Error(w, msg, code)`. -/
  | httpError (msg : String) (code : Nat)
  /-- The call `next.ServeHTTP(w, r)`. -/
  | serveNext (r : Request)

/-- The constant `http.StatusUnauthorized`. -/
def StatusUnauthorized : Nat := 401

/-- The constant `http.StatusTooManyRequests`. -/
def StatusTooManyRequests : Nat := 429

/-- The handler returned by `RateLimit(next)`, run on one request: its effects
and the process state afterwards; a panic in `Allow` propagates. -/
def RateLimit (w : World) (r : Request) (now : Time) (transportOk : Bool) :
    Except Panic (List Effect × World) :=
  match r.ctx "api_key" with
  | some (.str key) =>
    if key = "" then
      .ok ([.httpError "unauthorized" StatusUnauthorized], w)
    else
      match Allow w key now transportOk with
      | .error p => .error p
      | .ok (false, w1) =>
        .ok ([.allow key, .httpError "rate limit exceeded" StatusTooManyRequests], w1)
      | .ok (true, w1) => .ok ([.allow key, .serveNext r], w1)
  | _ => .ok ([.httpError "unauthorized" StatusUnauthorized], w)

/-! ## Sample states used by the closed statements below -/

/-- A limiter whose map is empty. -/
def emptyLimiter : RateLimiter := ⟨fun _ => none⟩

/-- A limiter holding one bucket, under `key`. -/
def oneBucket (key : String) (tb : TokenBucket) : RateLimiter :=
  emptyLimiter.store key tb

/-- The registered policy of `iot-node-satoshi`. -/
def satoshi : APIKeyConfig := ⟨100, 100⟩

/-- A policy with capacity `2 ^ 54` and a rate of `2 ^ 54` tokens per second. -/
def wide : APIKeyConfig := ⟨1080863910568919040, 18014398509481984⟩

/-- A process in Distributed mode: an initialised limiter with an empty map, a
client, an empty keyspace. -/
def distributedWorld : World := ⟨some emptyLimiter, some ⟨"redis://cache:6379"⟩, fun _ => none, 0⟩

/-- A request whose context holds `v` under `"api_key"` and nothing else. -/
def requestWith (v : Option CtxValue) : Request :=
  ⟨fun k => if k = "api_key" then v else none, "[]"⟩

/-- The refilled token count `allowLocal` computes for an existing bucket, in
exact arithmetic. -/
def refilled (cfg : APIKeyConfig) (tb : TokenBucket) (now : Time) : ℚ :=
  Min.min cfg.Capacity (tb.Tokens + Seconds (now - tb.LastUpdated) * cfg.RatePerMin / 60)

/-- The bucket stored under `key`, if any, holds between 0 and the capacity
and was last updated no later than `t`. -/
def BucketOk (cfg : APIKeyConfig) (key : String) (rl : RateLimiter) (t : Time) : Prop :=
  ∀ tb, rl.«local» key = some tb →
    0 ≤ tb.Tokens ∧ tb.Tokens ≤ cfg.Capacity ∧ tb.LastUpdated ≤ t

/-- A keyspace holding the two values of one key as `allowRedis` names them. -/
def sharedBucket (key : String) (tokens ts : ℚ) : RedisStore :=
  (RedisStore.SET (fun _ => none) ("rl:" ++ key) tokens).SET ("rl:" ++ key ++ ":ts") ts

/-! ## The arithmetic in `float64`

The definitions above take every `float64` operation as exact.  The namespace
`float64` repeats the arithmetic of `allowLocal` and of `allowRedis` with every
operation rounded to the nearest binary64 value, ties to even.  Values are the
rationals that are binary64 values.  Overflow to an infinity and NaN are not
modelled: `rnd` keeps 53 significant bits beyond `2 ^ 1024`, and the
statements below hold their quantities in the binary64 range or do not depend
on the value there. -/

namespace float64

/-- Nearest integer, a tie going to the even one. -/
def roundEven (x : ℚ) : ℤ :=
  if x - ⌊x⌋ < 1 / 2 then ⌊x⌋
  else if 1 / 2 < x - ⌊x⌋ then ⌊x⌋ + 1
  else if ⌊x⌋ % 2 = 0 then ⌊x⌋ else ⌊x⌋ + 1

/-- Binary exponent of the unit in the last place of the binary64 values next
to `x`: 53 significant bits, and `-1074` in the subnormal range. -/
def ulpExp (x : ℚ) : ℤ := max (Int.log 2 |x| - 52) (-1074)

/-- Rounding to binary64. -/
def rnd (x : ℚ) : ℚ := roundEven (x / 2 ^ ulpExp x) * 2 ^ ulpExp x

/-- The rationals that `rnd` leaves alone: at most 53 significant bits, with
the last place at `2 ^ (-1074)` or above. -/
def Rep (x : ℚ) : Prop := rnd x = x

/-- The rationals that are finite binary64 values. -/
def F64 (x : ℚ) : Prop := Rep x ∧ -(2 ^ 1024) < x ∧ x < 2 ^ 1024

/-- The operator `+` on `float64`. -/
def add (a b : ℚ) : ℚ := rnd (a + b)

/-- The operator `-` on `float64`. -/
def sub (a b : ℚ) : ℚ := rnd (a - b)

/-- The operator `*` on `float64`. -/
def mul (a b : ℚ) : ℚ := rnd (a * b)

/-- The operator `/` on `float64`. -/
def div (a b : ℚ) : ℚ := rnd (a / b)

/-- The conversion `float64(n)` of an integer. -/
def ofInt (n : Int) : ℚ := rnd n

/-- The method `Duration.Seconds` of package `time`:
`float64(d / Second) + float64(d % Second) / 1e9`, with Go's truncating
division. -/
def Seconds (d : Int) : ℚ :=
  add (ofInt (d.tdiv 1000000000)) (div (ofInt (d.tmod 1000000000)) 1000000000)

/-- The method `allowLocal` with rounded arithmetic. -/
def allowLocal (rl : RateLimiter) (key : String) (cfg : APIKeyConfig) (now : Time) :
    Bool × RateLimiter :=
  match rl.«local» key with
  | none => (true, rl.store key ⟨sub cfg.Capacity 1, now⟩)
  | some tb =>
    -- refill tokens
    let delta := Seconds (Time.Sub now tb.LastUpdated)
    let tokens := internal.min cfg.Capacity (add tb.Tokens (div (mul delta cfg.RatePerMin) 60))
    if tokens < 1 then
      (false, rl.store key ⟨tokens, now⟩)
    else
      (true, rl.store key ⟨sub tokens 1, now⟩)

/-- Issue the calls in order on the in-memory limiter, with rounded
arithmetic. -/
def runLocal (rl : RateLimiter) : List Call → List Bool × RateLimiter
  | [] => ([], rl)
  | c :: cs =>
    ((allowLocal rl c.key c.cfg c.now).1 :: (runLocal (allowLocal rl c.key c.cfg c.now).2 cs).1,
      (runLocal (allowLocal rl c.key c.cfg c.now).2 cs).2)

/-- The Lua script of `allowRedis` on Lua numbers (binary64). -/
def luaScript (kv : RedisStore) (key ts_key : String) (now rate capacity : ℚ) :
    Except EvalError (Int × RedisStore) :=
  let refillCharge (tokens last_ts : ℚ) : Except EvalError (Int × RedisStore) :=
    let delta := max 0 (sub now last_ts)
    let tokens := Min.min capacity (add tokens (mul delta rate))
    if tokens < 1 then
      .ok (0, (kv.SET key tokens).SET ts_key now)
    else
      .ok (1, (kv.SET key (sub tokens 1)).SET ts_key now)
  match kv key, kv ts_key with
  | none, _ => refillCharge capacity now
  | some tokens, some last_ts => refillCharge tokens last_ts
  | some _, none => .error .script

/-- The call `redisClient.Eval(...).Result()` running the script on Lua
numbers. -/
def Eval (kv : RedisStore) (transportOk : Bool) (key ts_key : String)
    (now rate capacity : ℚ) : Except EvalError (Int × RedisStore) :=
  if transportOk then luaScript kv key ts_key now rate capacity else .error .transport

/-- The timestamp `allowRedis` sends: `float64(t.UnixNano()) / 1e9` for the
wall-clock reading `t` in nanoseconds since the epoch. -/
def epochSeconds (t : Time) : ℚ := div (ofInt t) 1000000000

/-- The method `allowRedis` with rounded arithmetic: the script gets the
timestamp `epochSeconds now` and the rate `RatePerMin / 60.0`. -/
def allowRedis (w : World) (key : String) (cfg : APIKeyConfig) (now : Time)
    (transportOk : Bool) : Except Panic (Bool × World) :=
  match w.redisClient with
  | none => .error .nilDereference
  | some _ =>
    match Eval w.redis transportOk ("rl:" ++ key) ("rl:" ++ key ++ ":ts")
        (epochSeconds now) (div cfg.RatePerMin 60) cfg.Capacity with
    | .error _ => .ok (false, { w with evalCalls := w.evalCalls + 1 })
    | .ok (res, kv) => .ok (res == 1, { w with redis := kv, evalCalls := w.evalCalls + 1 })

/-- The amount `allowLocal` adds to a bucket last updated `d` nanoseconds
before the call: `delta * cfg.RatePerMin / 60.0`. -/
def increment (cfg : APIKeyConfig) (d : Int) : ℚ :=
  div (mul (Seconds d) cfg.RatePerMin) 60

/-- The amount the script adds to a bucket whose timestamp is `last_ts`:
`math.max(0, now - last_ts) * rate`, for the arguments `allowRedis` sends. -/
def scriptIncrement (cfg : APIKeyConfig) (now last_ts : ℚ) : ℚ :=
  mul (max 0 (sub now last_ts)) (div cfg.RatePerMin 60)

/-- The refilled token count `allowLocal` computes for an existing bucket. -/
def refilled (cfg : APIKeyConfig) (tb : TokenBucket) (now : Time) : ℚ :=
  Min.min cfg.Capacity (add tb.Tokens (increment cfg (now - tb.LastUpdated)))

/-- No operation of the refill of `tb` at `now` rounds: the elapsed seconds,
the product with the rate, the quotient by 60 and the sum with the stored
tokens are binary64 values. -/
def ExactRefill (cfg : APIKeyConfig) (tb : TokenBucket) (now : Time) : Prop :=
  Seconds (now - tb.LastUpdated) = internal.Seconds (now - tb.LastUpdated) ∧
    F64 (internal.Seconds (now - tb.LastUpdated) * cfg.RatePerMin) ∧
    F64 (internal.Seconds (now - tb.LastUpdated) * cfg.RatePerMin / 60) ∧
    F64 (tb.Tokens + internal.Seconds (now - tb.LastUpdated) * cfg.RatePerMin / 60)

/-- The script and `allowLocal` add the same binary64 amount to the bucket `tb`
at the reading `now`, and the product `delta * cfg.RatePerMin` of `allowLocal`
is in the binary64 range. -/
def SameIncrement (cfg : APIKeyConfig) (tb : TokenBucket) (now : Time) : Prop :=
  scriptIncrement cfg (epochSeconds now) (epochSeconds tb.LastUpdated) =
      increment cfg (now - tb.LastUpdated) ∧
    -(2 ^ 1024) < Seconds (now - tb.LastUpdated) * cfg.RatePerMin ∧
    Seconds (now - tb.LastUpdated) * cfg.RatePerMin < 2 ^ 1024

end float64

/-! ## Basic facts -/

theorem min_eq (a b : ℚ) : internal.min a b = Min.min a b := by
  unfold internal.min
  split_ifs with h
  · exact (min_eq_left h.le).symm
  · exact (min_eq_right (not_lt.mp h)).symm

theorem store_same (rl : RateLimiter) (key : String) (tb : TokenBucket) :
    (rl.store key tb).«local» key = some tb := by
  simp [RateLimiter.store]

theorem store_other (rl : RateLimiter) (key k : String) (tb : TokenBucket) (h : k ≠ key) :
    (rl.store key tb).«local» k = rl.«local» k := by
  simp [RateLimiter.store, h]

theorem store_store (rl : RateLimiter) (key : String) (a b : TokenBucket) :
    (rl.store key a).store key b = rl.store key b := by
  unfold RateLimiter.store
  congr 1
  funext k
  by_cases h : k = key <;> simp [h]

theorem APIKeys_satoshi : APIKeys "iot-node-satoshi" = some satoshi := by
  simp [APIKeys, satoshi]

theorem allowLocal_absent (rl : RateLimiter) (key : String) (cfg : APIKeyConfig) (now : Time)
    (h : rl.«local» key = none) :
    allowLocal rl key cfg now = (true, rl.store key ⟨cfg.Capacity - 1, now⟩) := by
  simp [allowLocal, h]

theorem allowLocal_existing (rl : RateLimiter) (key : String) (cfg : APIKeyConfig) (now : Time)
    (tb : TokenBucket) (h : rl.«local» key = some tb) :
    allowLocal rl key cfg now =
      if refilled cfg tb now < 1 then (false, rl.store key ⟨refilled cfg tb now, now⟩)
      else (true, rl.store key ⟨refilled cfg tb now - 1, now⟩) := by
  simp [allowLocal, h, min_eq, refilled, Time.Sub]

theorem Seconds_zero : Seconds 0 = 0 := by
  simp [Seconds]

theorem Seconds_nonneg (d : Int) (h : 0 ≤ d) : 0 ≤ Seconds d := by
  unfold Seconds
  have : (0 : ℚ) ≤ (d : ℚ) := by exact_mod_cast h
  positivity

theorem Seconds_add (a b : Int) : Seconds (a + b) = Seconds a + Seconds b := by
  unfold Seconds
  push_cast
  ring

theorem refilled_same_instant (cfg : APIKeyConfig) (x : ℚ) (now : Time)
    (h : x ≤ cfg.Capacity) : refilled cfg ⟨x, now⟩ now = x := by
  simp [refilled, Seconds_zero, h]

/-! ## Unknown keys -/

/-- C6: for a key that is not in `APIKeys`, `Allow` returns false in either
mode and leaves the whole process state as it was: the limiter's map gets no
entry, the shared keyspace is not written and no `EVAL` is issued. -/
theorem Allow_unknown_key_denied (w : World) (key : String) (now : Time) (transportOk : Bool)
    (h : APIKeys key = none) : Allow w key now transportOk = .ok (false, w) := by
  simp [Allow, h]

theorem Allow_unknown_key_denied_witness :
    APIKeys "iot-node-unknown" = none ∧
      Allow distributedWorld "iot-node-unknown" 0 true = .ok (false, distributedWorld) :=
  ⟨by decide, Allow_unknown_key_denied distributedWorld "iot-node-unknown" 0 true (by decide)⟩

/-! ## Failure of the shared store -/

/-- C1, as stated, fails: in Distributed mode with an unreachable server the
`EVAL` of `allowRedis` returns an error, `Allow` answers false although
`allowLocal` admits the same key at the same instant on the same limiter, and
the client pointer is still set afterwards. -/
theorem Allow_eval_failure_counterexample :
    Eval distributedWorld.redis false ("rl:" ++ "iot-node-satoshi")
        ("rl:" ++ "iot-node-satoshi" ++ ":ts") (Seconds 0) (satoshi.RatePerMin / 60)
        satoshi.Capacity = .error .transport ∧
      Allow distributedWorld "iot-node-satoshi" 0 false =
        .ok (false, { distributedWorld with evalCalls := 1 }) ∧
      ({ distributedWorld with evalCalls := 1 } : World).redisClient.isSome = true ∧
      (allowLocal emptyLimiter "iot-node-satoshi" satoshi 0).1 = true := by
  refine ⟨by simp [Eval], ?_, rfl, by simp [allowLocal, emptyLimiter]⟩
  simp [Allow, APIKeys_satoshi, allowRedis, Eval, distributedWorld]

/-- C1, amended: in Distributed mode, for a provisioned key, when the `EVAL`
issued by `allowRedis` returns an error (transport or script), `Allow` returns
false; the limiter's map, the keyspace and the client pointer are as before
(the limiter stays in Distributed mode), one `EVAL` has been issued. -/
theorem Allow_eval_failure_denies (w : World) (key : String) (cfg : APIKeyConfig)
    (c : RedisClient) (now : Time) (transportOk : Bool) (e : EvalError)
    (hkey : APIKeys key = some cfg) (hclient : w.redisClient = some c)
    (herr : Eval w.redis transportOk ("rl:" ++ key) ("rl:" ++ key ++ ":ts")
      (Seconds now) (cfg.RatePerMin / 60) cfg.Capacity = .error e) :
    Allow w key now transportOk = .ok (false, { w with evalCalls := w.evalCalls + 1 }) := by
  simp [Allow, hkey, hclient, allowRedis, herr]

theorem Allow_eval_failure_denies_witness :
    Allow distributedWorld "iot-node-satoshi" 0 false =
      .ok (false, { distributedWorld with evalCalls := distributedWorld.evalCalls + 1 }) :=
  Allow_eval_failure_denies distributedWorld "iot-node-satoshi" satoshi
    ⟨"redis://cache:6379"⟩ 0 false .transport APIKeys_satoshi rfl (by simp [Eval])

/-! ## Middleware -/

/-- C8: the middleware answers 401 and does nothing else when the context holds
no non-empty string under `"api_key"`; otherwise it calls `Allow` once, and
answers 429 without serving the next handler when the decision is false, and
serves the next handler once with the same request, writing nothing itself,
when the decision is true.  The two status codes differ. -/
theorem RateLimit_outcomes (w : World) (r : Request) (now : Time) (transportOk : Bool) :
    ((∀ key, r.ctx "api_key" = some (.str key) → key = "") →
        RateLimit w r now transportOk =
          .ok ([.httpError "unauthorized" StatusUnauthorized], w)) ∧
      (∀ key w1, r.ctx "api_key" = some (.str key) → key ≠ "" →
        Allow w key now transportOk = .ok (false, w1) →
        RateLimit w r now transportOk =
          .ok ([.allow key, .httpError "rate limit exceeded" StatusTooManyRequests], w1)) ∧
      (∀ key w1, r.ctx "api_key" = some (.str key) → key ≠ "" →
        Allow w key now transportOk = .ok (true, w1) →
        RateLimit w r now transportOk = .ok ([.allow key, .serveNext r], w1)) ∧
      StatusUnauthorized ≠ StatusTooManyRequests := by
  refine ⟨?_, ?_, ?_, by decide⟩
  · intro h
    unfold RateLimit
    split
    · next key hk => simp [h key hk]
    · rfl
  · intro key w1 hk hne ha
    simp [RateLimit, hk, hne, ha]
  · intro key w1 hk hne ha
    simp [RateLimit, hk, hne, ha]

theorem RateLimit_outcomes_witness :
    RateLimit distributedWorld (requestWith none) 0 true =
        .ok ([.httpError "unauthorized" StatusUnauthorized], distributedWorld) ∧
      RateLimit distributedWorld (requestWith (some (.str "iot-node-unknown"))) 0 true =
        .ok ([.allow "iot-node-unknown",
          .httpError "rate limit exceeded" StatusTooManyRequests], distributedWorld) ∧
      RateLimit ⟨some emptyLimiter, none, fun _ => none, 0⟩
          (requestWith (some (.str "iot-node-satoshi"))) 0 true =
        .ok ([.allow "iot-node-satoshi",
          .serveNext (requestWith (some (.str "iot-node-satoshi")))],
          ⟨some (emptyLimiter.store "iot-node-satoshi" ⟨99, 0⟩), none, fun _ => none, 0⟩) :=
  ⟨(RateLimit_outcomes distributedWorld (requestWith none) 0 true).1
      (by simp [requestWith]),
    (RateLimit_outcomes distributedWorld (requestWith (some (.str "iot-node-unknown"))) 0
      true).2.1 "iot-node-unknown" distributedWorld (by simp [requestWith]) (by decide)
      (by simp [Allow, APIKeys]),
    (RateLimit_outcomes ⟨some emptyLimiter, none, fun _ => none, 0⟩
      (requestWith (some (.str "iot-node-satoshi"))) 0 true).2.2.1 "iot-node-satoshi"
      ⟨some (emptyLimiter.store "iot-node-satoshi" ⟨99, 0⟩), none, fun _ => none, 0⟩
      (by simp [requestWith]) (by decide)
      (by simp [Allow, APIKeys_satoshi, allowLocal, emptyLimiter, satoshi]; norm_num)⟩

/-! ## Set-up by `main` -/

/-- C9 fails on the code: whatever the URL and the ping, `main` leaves the
package variable `rl` nil, because the limiter made by `NewRateLimiter` is not
assigned to it; with no URL configured the limiter is in Degraded mode and the
admission check of a request carrying the provisioned key `iot-node-satoshi`
ends in a nil dereference instead of a decision. -/
theorem mainSetup_limiter_nil :
    (∀ (kv : RedisStore) (redisUrl : String) (pingOk : Bool),
        (mainSetup (startWorld kv) redisUrl pingOk).rl = none) ∧
      (mainSetup (startWorld (fun _ => none)) "" true).redisClient = none ∧
      Allow (mainSetup (startWorld (fun _ => none)) "" true) "iot-node-satoshi" 0 true =
        .error .nilDereference ∧
      RateLimit (mainSetup (startWorld (fun _ => none)) "" true)
        (requestWith (some (.str "iot-node-satoshi"))) 0 true = .error .nilDereference := by
  refine ⟨?_, ?_, ?_, ?_⟩
  · intro kv redisUrl pingOk
    unfold mainSetup NewRateLimiter startWorld
    split_ifs <;> rfl
  · simp [mainSetup, NewRateLimiter, startWorld]
  · simp [mainSetup, NewRateLimiter, startWorld, Allow, APIKeys_satoshi]
  · simp [mainSetup, NewRateLimiter, startWorld, RateLimit, requestWith, Allow,
      APIKeys_satoshi]

/-! ## Arithmetic facts -/

theorem min_add_absorb (c a d : ℚ) (hd : 0 ≤ d) :
    Min.min c (Min.min c a + d) = Min.min c (a + d) := by
  rcases le_total a c with h | h
  · rw [min_eq_right h]
  · rw [min_eq_left h, min_eq_left (by linarith), min_eq_left (by linarith)]

theorem refilled_after_denial (cfg : APIKeyConfig) (tb : TokenBucket) (t1 t2 : Time)
    (hrate : 0 ≤ cfg.RatePerMin) (h12 : t1 ≤ t2) :
    refilled cfg ⟨refilled cfg tb t1, t1⟩ t2 = refilled cfg tb t2 := by
  have hd : 0 ≤ Seconds (t2 - t1) * cfg.RatePerMin / 60 := by
    have := Seconds_nonneg (t2 - t1) (sub_nonneg.mpr h12)
    positivity
  have hs : Seconds (t2 - tb.LastUpdated) =
      Seconds (t1 - tb.LastUpdated) + Seconds (t2 - t1) := by
    rw [← Seconds_add]
    congr 1
    ring
  unfold refilled
  simp only []
  rw [min_add_absorb _ _ _ hd, hs]
  congr 1
  ring

/-! ## Bursts at one instant -/

theorem runLocal_cons (rl : RateLimiter) (c : Call) (cs : List Call) :
    (runLocal rl (c :: cs)).1 =
      (allowLocal rl c.key c.cfg c.now).1 :: (runLocal (allowLocal rl c.key c.cfg c.now).2 cs).1 :=
  rfl

/-- A bucket holding `x` tokens, `n ≤ x < n + 1`, checked `n + 1` times at the
instant of its last update, admits `n` calls and denies the next. -/
theorem runLocal_drain (key : String) (cfg : APIKeyConfig) (now : Time) (n : ℕ) :
    ∀ (rl : RateLimiter) (x : ℚ), rl.«local» key = some ⟨x, now⟩ → (n : ℚ) ≤ x → x < n + 1 →
      x ≤ cfg.Capacity →
      (runLocal rl (List.replicate (n + 1) ⟨key, cfg, now⟩)).1 =
        List.replicate n true ++ [false] := by
  induction n with
  | zero =>
    intro rl x hb _ hx hcap
    have hx1 : x < 1 := by simpa using hx
    simp [runLocal, allowLocal_existing rl key cfg now _ hb, refilled_same_instant cfg x now hcap,
      hx1]
  | succ m ih =>
    intro rl x hb hm hx hcap
    have hx1 : ¬ x < 1 := by
      push_cast at hm
      have : (0 : ℚ) ≤ m := Nat.cast_nonneg m
      linarith
    rw [List.replicate_succ, runLocal_cons]
    simp only [allowLocal_existing rl key cfg now _ hb, refilled_same_instant cfg x now hcap,
      hx1, if_false]
    rw [ih (rl.store key ⟨x - 1, now⟩) (x - 1) (store_same _ _ _) (by push_cast at hm; linarith)
      (by push_cast at hx; linarith) (by linarith)]
    rfl

/-- C2: with an integer capacity `C > 0` and no bucket stored for the key,
`C + 1` calls of `allowLocal` at one instant return true `C` times and then
false. -/
theorem allowLocal_burst_capacity (rl : RateLimiter) (key : String) (cfg : APIKeyConfig)
    (now : Time) (C : ℕ) (hC : 0 < C) (hcap : cfg.Capacity = C)
    (hempty : rl.«local» key = none) :
    (runLocal rl (List.replicate (C + 1) ⟨key, cfg, now⟩)).1 =
      List.replicate C true ++ [false] := by
  obtain ⟨m, rfl⟩ : ∃ m, C = m + 1 := ⟨C - 1, by omega⟩
  rw [List.replicate_succ, runLocal_cons]
  simp only [allowLocal_absent rl key cfg now hempty]
  rw [runLocal_drain key cfg now m (rl.store key ⟨cfg.Capacity - 1, now⟩) (cfg.Capacity - 1)
    (store_same _ _ _) (by rw [hcap]; push_cast; linarith) (by rw [hcap]; push_cast; linarith)
    (by linarith)]
  rfl

theorem allowLocal_burst_capacity_witness :
    (runLocal emptyLimiter (List.replicate (3 + 1) ⟨"k", ⟨0, 3⟩, 7⟩)).1 =
      List.replicate 3 true ++ [false] :=
  allowLocal_burst_capacity emptyLimiter "k" ⟨0, 3⟩ 7 3 (by decide) (by norm_num) rfl

/-! ## Bounds on the stored token count -/

theorem allowLocal_other_key (rl : RateLimiter) (k key : String) (cfg : APIKeyConfig)
    (now : Time) (h : key ≠ k) :
    (allowLocal rl k cfg now).2.«local» key = rl.«local» key := by
  cases hb : rl.«local» k with
  | none =>
    rw [allowLocal_absent rl k cfg now hb]
    exact store_other _ _ _ _ h
  | some tb =>
    rw [allowLocal_existing rl k cfg now tb hb]
    split_ifs <;> exact store_other _ _ _ _ h

theorem allowLocal_bucketOk (rl : RateLimiter) (key : String) (cfg : APIKeyConfig)
    (t now : Time) (hcap : 1 ≤ cfg.Capacity) (hrate : 0 ≤ cfg.RatePerMin) (ht : t ≤ now)
    (hok : BucketOk cfg key rl t) : BucketOk cfg key (allowLocal rl key cfg now).2 now := by
  intro tb' htb'
  cases hb : rl.«local» key with
  | none =>
    rw [allowLocal_absent rl key cfg now hb, store_same] at htb'
    cases htb'
    exact ⟨by simpa using hcap, by simp, le_refl _⟩
  | some tb =>
    obtain ⟨h0, _, hlast⟩ := hok tb hb
    have hd : 0 ≤ Seconds (now - tb.LastUpdated) * cfg.RatePerMin / 60 := by
      have := Seconds_nonneg (now - tb.LastUpdated) (sub_nonneg.mpr (le_trans hlast ht))
      positivity
    have hr0 : 0 ≤ refilled cfg tb now := le_min (by linarith) (by linarith)
    have hrc : refilled cfg tb now ≤ cfg.Capacity := min_le_left _ _
    rw [allowLocal_existing rl key cfg now tb hb] at htb'
    split_ifs at htb' with h1
    · rw [store_same] at htb'
      cases htb'
      exact ⟨hr0, hrc, le_refl _⟩
    · rw [store_same] at htb'
      cases htb'
      exact ⟨by simp only []; linarith, by simp only []; linarith, le_refl _⟩

theorem runLocal_bucketOk (cfg : APIKeyConfig) (key : String) (hcap : 1 ≤ cfg.Capacity)
    (hrate : 0 ≤ cfg.RatePerMin) :
    ∀ (calls : List Call) (rl : RateLimiter) (t : Time), BucketOk cfg key rl t →
      (∀ c ∈ calls, c.key = key → c.cfg = cfg) → (∀ c ∈ calls, t ≤ c.now) →
      calls.Pairwise (fun a b => a.now ≤ b.now) →
      ∀ tb, (runLocal rl calls).2.«local» key = some tb →
        0 ≤ tb.Tokens ∧ tb.Tokens ≤ cfg.Capacity := by
  intro calls
  induction calls with
  | nil =>
    intro rl t hok _ _ _ tb htb
    exact ⟨(hok tb htb).1, (hok tb htb).2.1⟩
  | cons c cs ih =>
    intro rl t hok hpol hlow hpair tb htb
    rw [List.pairwise_cons] at hpair
    have hstep : BucketOk cfg key (allowLocal rl c.key c.cfg c.now).2 c.now := by
      by_cases hk : c.key = key
      · have hc := hpol c (List.mem_cons_self _ _) hk
        rw [hk, hc]
        exact allowLocal_bucketOk rl key cfg t c.now hcap hrate
          (hlow c (List.mem_cons_self _ _)) hok
      · intro tb1 htb1
        rw [allowLocal_other_key rl c.key key c.cfg c.now (fun h => hk h.symm)] at htb1
        obtain ⟨a, b, d⟩ := hok tb1 htb1
        exact ⟨a, b, le_trans d (hlow c (List.mem_cons_self _ _))⟩
    exact ih (allowLocal rl c.key c.cfg c.now).2 c.now hstep
      (fun d hd => hpol d (List.mem_cons_of_mem _ hd)) hpair.1 hpair.2 tb htb

/-- C4, as stated, fails: with capacity `1/2` the first call stores `-1/2`
tokens; and with the registered policy 100 per minute, a call at second 60
followed by a call at second 0 stores `-1` tokens. -/
theorem allowLocal_tokens_negative_counterexample :
    (0 : ℚ) < (⟨0, 1 / 2⟩ : APIKeyConfig).Capacity ∧
      (runLocal emptyLimiter [⟨"k", ⟨0, 1 / 2⟩, 0⟩]).2.«local» "k" = some ⟨-1 / 2, 0⟩ ∧
      (runLocal emptyLimiter [⟨"iot-node-satoshi", satoshi, 60000000000⟩,
        ⟨"iot-node-satoshi", satoshi, 0⟩]).2.«local» "iot-node-satoshi" = some ⟨-1, 0⟩ := by
  refine ⟨by norm_num, ?_, ?_⟩
  · simp only [runLocal]
    rw [allowLocal_absent emptyLimiter "k" _ _ rfl, store_same]
    norm_num
  · simp only [runLocal]
    rw [allowLocal_absent emptyLimiter "iot-node-satoshi" _ _ rfl,
      allowLocal_existing _ _ _ _ _ (store_same _ _ _)]
    have h0 : refilled satoshi ⟨satoshi.Capacity - 1, 60000000000⟩ 0 = -1 := by
      norm_num [refilled, satoshi, Seconds]
    rw [h0]
    norm_num [store_same]

/-- C4, amended: for a policy with capacity at least 1 and a rate that is not
negative, starting from an empty limiter, after every prefix of a sequence of
`allowLocal` calls made at non-decreasing instants (calls for the key use the
policy, calls for other keys are arbitrary) the bucket stored for the key holds
between 0 and the capacity. -/
theorem allowLocal_tokens_bounded (cfg : APIKeyConfig) (key : String) (calls : List Call)
    (n : ℕ) (hcap : 1 ≤ cfg.Capacity) (hrate : 0 ≤ cfg.RatePerMin)
    (hpol : ∀ c ∈ calls, c.key = key → c.cfg = cfg)
    (htime : calls.Pairwise (fun a b => a.now ≤ b.now)) (tb : TokenBucket)
    (htb : (runLocal emptyLimiter (calls.take n)).2.«local» key = some tb) :
    0 ≤ tb.Tokens ∧ tb.Tokens ≤ cfg.Capacity := by
  cases hcs : calls.take n with
  | nil =>
    rw [hcs] at htb
    simp [runLocal, emptyLimiter] at htb
  | cons c cs =>
    have hsub : (c :: cs).Sublist calls := hcs ▸ List.take_sublist n calls
    have hp := htime.sublist hsub
    rw [hcs] at htb
    refine runLocal_bucketOk cfg key hcap hrate (c :: cs) emptyLimiter c.now ?_ ?_ ?_ hp tb htb
    · intro tb0 h0
      simp [emptyLimiter] at h0
    · intro d hd
      exact hpol d (hsub.subset hd)
    · intro d hd
      rw [List.pairwise_cons] at hp
      rcases List.mem_cons.mp hd with h | h
      · rw [h]
      · exact hp.1 d h

theorem allowLocal_tokens_bounded_witness :
    (runLocal emptyLimiter (List.take 2 [⟨"iot-node-satoshi", satoshi, 0⟩,
        ⟨"iot-node-satoshi", satoshi, 1000000000⟩])).2.«local» "iot-node-satoshi" =
        some ⟨99, 1000000000⟩ ∧
      (0 ≤ (⟨99, 1000000000⟩ : TokenBucket).Tokens ∧
        (⟨99, 1000000000⟩ : TokenBucket).Tokens ≤ satoshi.Capacity) := by
  have h : (runLocal emptyLimiter (List.take 2 [⟨"iot-node-satoshi", satoshi, 0⟩,
      ⟨"iot-node-satoshi", satoshi, 1000000000⟩])).2.«local» "iot-node-satoshi" =
      some ⟨99, 1000000000⟩ := by
    simp only [List.take, runLocal]
    rw [allowLocal_absent emptyLimiter "iot-node-satoshi" _ _ rfl,
      allowLocal_existing _ _ _ _ _ (store_same _ _ _)]
    have h0 : refilled satoshi ⟨satoshi.Capacity - 1, 0⟩ 1000000000 = 100 := by
      norm_num [refilled, satoshi, Seconds]
    rw [h0]
    norm_num [store_same]
  exact ⟨h, allowLocal_tokens_bounded satoshi "iot-node-satoshi" _ 2 (by norm_num [satoshi])
    (by norm_num [satoshi]) (by simp) (by simp) _ h⟩

/-! ## Rounding to binary64 -/

namespace float64

theorem roundEven_cases (x : ℚ) : roundEven x = ⌊x⌋ ∨ (roundEven x = ⌊x⌋ + 1 ∧ 1 / 2 ≤ x - ⌊x⌋) := by
  unfold roundEven
  split_ifs with h1 h2 h3
  · exact Or.inl rfl
  · exact Or.inr ⟨rfl, h2.le⟩
  · exact Or.inl rfl
  · exact Or.inr ⟨rfl, not_lt.mp h1⟩

theorem le_roundEven {n : ℤ} {x : ℚ} (h : (n : ℚ) ≤ x) : n ≤ roundEven x := by
  have hf : n ≤ ⌊x⌋ := Int.le_floor.mpr h
  rcases roundEven_cases x with h1 | ⟨h1, _⟩ <;> omega

theorem roundEven_le {n : ℤ} {x : ℚ} (h : x ≤ (n : ℚ)) : roundEven x ≤ n := by
  rcases roundEven_cases x with h1 | ⟨h1, h2⟩
  · rw [h1]
    have : (⌊x⌋ : ℚ) ≤ x := Int.floor_le x
    exact_mod_cast (le_trans this h)
  · rw [h1]
    have : (⌊x⌋ : ℚ) < n := by linarith
    have : ⌊x⌋ < n := by exact_mod_cast this
    omega

theorem roundEven_intCast (n : ℤ) : roundEven (n : ℚ) = n :=
  le_antisymm (roundEven_le le_rfl) (le_roundEven le_rfl)

theorem roundEven_eq_of_abs_lt (x : ℚ) (k : ℤ) (h : |x - k| < 1 / 2) : roundEven x = k := by
  rw [abs_lt] at h
  obtain ⟨h1, h2⟩ := h
  unfold roundEven
  by_cases hk : (k : ℚ) ≤ x
  · have hf : ⌊x⌋ = k := Int.floor_eq_iff.mpr ⟨hk, by linarith⟩
    rw [hf, if_pos (by linarith)]
  · have hf : ⌊x⌋ = k - 1 := Int.floor_eq_iff.mpr ⟨by push_cast; linarith, by push_cast; linarith⟩
    rw [hf]
    push_cast
    rw [if_neg (by linarith), if_pos (by linarith)]
    ring

theorem two_zpow_pos (e : ℤ) : (0 : ℚ) < 2 ^ e := zpow_pos (by norm_num) e

theorem two_zpow_le {a b : ℤ} (h : a ≤ b) : (2 : ℚ) ^ a ≤ 2 ^ b :=
  zpow_le_zpow_right₀ (by norm_num) h

theorem log_eq_of_bounds {x : ℚ} {e : ℤ} (hpos : 0 < x) (h1 : 2 ^ e ≤ x) (h2 : x < 2 ^ (e + 1)) :
    Int.log 2 x = e := by
  have ha : e ≤ Int.log 2 x :=
    (Int.zpow_le_iff_le_log (by norm_num) hpos).mp (by exact_mod_cast h1)
  have hb : Int.log 2 x < e + 1 :=
    (Int.lt_zpow_iff_log_lt (by norm_num) hpos).mp (by exact_mod_cast h2)
  omega

theorem log_lt_of_lt {x : ℚ} {e : ℤ} (hpos : 0 < x) (h2 : x < 2 ^ e) : Int.log 2 x < e :=
  (Int.lt_zpow_iff_log_lt (by norm_num) hpos).mp (by exact_mod_cast h2)

theorem zpow_log_le {x : ℚ} (hpos : 0 < x) : (2 : ℚ) ^ Int.log 2 x ≤ x := by
  have := Int.zpow_log_le_self (b := 2) (by norm_num) hpos
  exact_mod_cast this

theorem lt_zpow_log_succ (x : ℚ) : x < (2 : ℚ) ^ (Int.log 2 x + 1) := by
  have := Int.lt_zpow_succ_log_self (b := 2) (by norm_num) x
  exact_mod_cast this

theorem rnd_zero : rnd 0 = 0 := by
  simp [rnd, roundEven]

/-- An integer multiple of the unit in the last place is left alone. -/
theorem rnd_of_multiple (x : ℚ) (n : ℤ) (h : x = n * 2 ^ ulpExp x) : rnd x = x := by
  unfold rnd
  have hx : x / 2 ^ ulpExp x = n := by
    rw [div_eq_iff (two_zpow_pos _).ne']
    exact h
  rw [hx, roundEven_intCast]
  exact h.symm

theorem ulpExp_ge (x : ℚ) : -1074 ≤ ulpExp x := le_max_right _ _

theorem ulpExp_neg (x : ℚ) : ulpExp (-x) = ulpExp x := by
  simp [ulpExp]

/-- A value `k * 2 ^ e` with `|k| < 2 ^ 53` and `e ≥ -1074` is a float64. -/
theorem rnd_of_repr_lt (k e : ℤ) (hk : |k| < 2 ^ 53) (he : -1074 ≤ e) :
    rnd ((k : ℚ) * 2 ^ e) = (k : ℚ) * 2 ^ e := by
  by_cases hk0 : k = 0
  · simp [hk0, rnd_zero]
  set x : ℚ := (k : ℚ) * 2 ^ e with hx
  have habs : |x| = (|k| : ℤ) * 2 ^ e := by
    rw [hx, abs_mul, abs_of_pos (two_zpow_pos e)]
    push_cast
    rfl
  have hpos : 0 < |x| := by
    rw [habs]
    have : (0 : ℚ) < (|k| : ℤ) := by exact_mod_cast abs_pos.mpr hk0
    exact mul_pos this (two_zpow_pos e)
  have hlt : |x| < 2 ^ (53 + e) := by
    rw [habs, zpow_add₀ (by norm_num : (2 : ℚ) ≠ 0)]
    have : ((|k| : ℤ) : ℚ) < 2 ^ (53 : ℤ) := by exact_mod_cast hk
    exact mul_lt_mul_of_pos_right this (two_zpow_pos e)
  have hlog : Int.log 2 |x| < 53 + e := log_lt_of_lt hpos hlt
  have hu : ulpExp x ≤ e := by
    unfold ulpExp
    exact max_le (by omega) he
  obtain ⟨d, hd⟩ : ∃ d : ℕ, e = ulpExp x + d := ⟨(e - ulpExp x).toNat, by omega⟩
  apply rnd_of_multiple x (k * 2 ^ d)
  conv_lhs => rw [hx, hd]
  rw [zpow_add₀ (by norm_num : (2 : ℚ) ≠ 0), zpow_natCast]
  push_cast
  ring

theorem rnd_of_repr (k e : ℤ) (hk : |k| ≤ 2 ^ 53) (he : -1074 ≤ e) :
    rnd ((k : ℚ) * 2 ^ e) = (k : ℚ) * 2 ^ e := by
  rcases lt_or_eq_of_le hk with h | h
  · exact rnd_of_repr_lt k e h he
  · have hk2 : (k : ℚ) * 2 ^ e = ((k / 2 : ℤ) : ℚ) * 2 ^ (e + 1) := by
      have hdiv : k = 2 * (k / 2) := by
        rcases abs_cases k with ⟨h1, _⟩ | ⟨h1, _⟩ <;> omega
      rw [zpow_add₀ (by norm_num : (2 : ℚ) ≠ 0), zpow_one]
      conv_lhs => rw [hdiv]
      push_cast
      ring
    rw [hk2]
    apply rnd_of_repr_lt _ _ _ (by omega)
    rcases abs_cases k with ⟨h1, _⟩ | ⟨h1, _⟩ <;> rcases abs_cases (k / 2) with ⟨h2, _⟩ | ⟨h2, _⟩ <;>
      omega

theorem rnd_intCast (n : ℤ) (h : |n| ≤ 2 ^ 53) : rnd (n : ℚ) = n := by
  have := rnd_of_repr n 0 h (by norm_num)
  simpa using this

theorem ulpExp_of_bounds {x : ℚ} {e : ℤ} (hpos : 0 < x) (h1 : 2 ^ e ≤ x) (h2 : x < 2 ^ (e + 1))
    (he : -1022 ≤ e) : ulpExp x = e - 52 := by
  unfold ulpExp
  rw [abs_of_pos hpos, log_eq_of_bounds hpos h1 h2]
  exact max_eq_left (by omega)

/-- Evaluation of `rnd` at a positive value in the normal range whose scaled
value is not a tie. -/
theorem rnd_eq_of_bounds (x : ℚ) (e k : ℤ) (hpos : 0 < x) (h1 : 2 ^ e ≤ x)
    (h2 : x < 2 ^ (e + 1)) (he : -1022 ≤ e) (hk : |x / 2 ^ (e - 52) - k| < 1 / 2) :
    rnd x = (k : ℚ) * 2 ^ (e - 52) := by
  unfold rnd
  rw [ulpExp_of_bounds hpos h1 h2 he, roundEven_eq_of_abs_lt _ k hk]

theorem abs_scaled_lt (x : ℚ) : |x / 2 ^ ulpExp x| < 2 ^ (53 : ℤ) := by
  rw [abs_div, abs_of_pos (two_zpow_pos _), div_lt_iff₀ (two_zpow_pos _),
    ← zpow_add₀ (by norm_num : (2 : ℚ) ≠ 0)]
  by_cases hx : x = 0
  · rw [hx, abs_zero]
    exact two_zpow_pos _
  · have hpos : 0 < |x| := abs_pos.mpr hx
    refine lt_of_lt_of_le (lt_zpow_log_succ |x|) (two_zpow_le ?_)
    have : Int.log 2 |x| - 52 ≤ ulpExp x := le_max_left _ _
    omega

/-- Every rounded value is `k * 2 ^ e` with `|k| ≤ 2 ^ 53` and `e ≥ -1074`. -/
theorem rnd_repr (x : ℚ) :
    ∃ k e : ℤ, |k| ≤ 2 ^ 53 ∧ -1074 ≤ e ∧ rnd x = (k : ℚ) * 2 ^ e := by
  refine ⟨roundEven (x / 2 ^ ulpExp x), ulpExp x, ?_, ulpExp_ge x, rfl⟩
  have h := abs_lt.mp (abs_scaled_lt x)
  rw [abs_le]
  constructor
  · apply le_roundEven
    have : ((-(2 ^ 53) : ℤ) : ℚ) = -(2 ^ (53 : ℤ)) := by norm_num
    rw [this]
    exact h.1.le
  · apply roundEven_le
    have : (((2 ^ 53) : ℤ) : ℚ) = (2 ^ (53 : ℤ)) := by norm_num
    rw [this]
    exact h.2.le

theorem rnd_rnd (x : ℚ) : rnd (rnd x) = rnd x := by
  obtain ⟨k, e, hk, he, h⟩ := rnd_repr x
  rw [h]
  exact rnd_of_repr k e hk he

theorem Rep_rnd (x : ℚ) : Rep (rnd x) := rnd_rnd x

theorem Rep_repr {x : ℚ} (h : Rep x) :
    ∃ k e : ℤ, |k| ≤ 2 ^ 53 ∧ -1074 ≤ e ∧ x = (k : ℚ) * 2 ^ e := by
  obtain ⟨k, e, hk, he, hr⟩ := rnd_repr x
  exact ⟨k, e, hk, he, h.symm.trans hr⟩

theorem Rep_of_repr (k e : ℤ) (hk : |k| ≤ 2 ^ 53) (he : -1074 ≤ e) : Rep ((k : ℚ) * 2 ^ e) :=
  rnd_of_repr k e hk he

theorem Rep_intCast (n : ℤ) (h : |n| ≤ 2 ^ 53) : Rep (n : ℚ) := rnd_intCast n h

/-- Subtracting 1 from a float64 between 1 and `2 ^ 53` is exact. -/
theorem Rep_sub_one {m : ℚ} (hm : Rep m) (h1 : 1 ≤ m) (h2 : m ≤ 2 ^ (53 : ℤ)) : Rep (m - 1) := by
  obtain ⟨k, e, hk, he, hx⟩ := Rep_repr hm
  rcases le_or_lt 0 e with h0 | h0
  · obtain ⟨d, hd⟩ : ∃ d : ℕ, e = d := ⟨e.toNat, by omega⟩
    have hint : m = ((k * 2 ^ d : ℤ) : ℚ) := by
      rw [hx, hd, zpow_natCast]
      push_cast
      ring
    have hsub : m - 1 = ((k * 2 ^ d - 1 : ℤ) : ℚ) := by
      rw [hint]
      push_cast
      ring
    rw [hsub]
    apply Rep_intCast
    have a1 : (1 : ℤ) ≤ k * 2 ^ d := by
      have : ((1 : ℤ) : ℚ) ≤ ((k * 2 ^ d : ℤ) : ℚ) := by rw [← hint]; exact_mod_cast h1
      exact_mod_cast this
    have a2 : k * 2 ^ d ≤ 2 ^ 53 := by
      have : ((k * 2 ^ d : ℤ) : ℚ) ≤ ((2 ^ 53 : ℤ) : ℚ) := by
        rw [← hint]
        have : (((2 ^ 53) : ℤ) : ℚ) = (2 ^ (53 : ℤ)) := by norm_num
        rw [this]
        exact h2
      exact_mod_cast this
    rw [abs_le]
    constructor <;> omega
  · obtain ⟨d, hd⟩ : ∃ d : ℕ, e = -(d : ℤ) := ⟨(-e).toNat, by omega⟩
    have hone : (1 : ℚ) = ((2 ^ d : ℤ) : ℚ) * 2 ^ e := by
      rw [hd, zpow_neg, zpow_natCast]
      push_cast
      rw [mul_inv_cancel₀ (by positivity)]
    have hsub : m - 1 = ((k - 2 ^ d : ℤ) : ℚ) * 2 ^ e := by
      rw [hx]
      conv_lhs => rw [hone]
      push_cast
      ring
    rw [hsub]
    apply Rep_of_repr _ _ _ he
    have a1 : (2 : ℤ) ^ d ≤ k := by
      have : ((2 ^ d : ℤ) : ℚ) * 2 ^ e ≤ (k : ℚ) * 2 ^ e := by
        rw [← hone, ← hx]
        exact h1
      have := le_of_mul_le_mul_right this (two_zpow_pos e)
      exact_mod_cast this
    have a0 : (0 : ℤ) < 2 ^ d := by positivity
    rw [abs_le] at hk ⊢
    constructor <;> omega

theorem rnd_sub_one {m : ℚ} (hm : Rep m) (h1 : 1 ≤ m) (h2 : m ≤ 2 ^ (53 : ℤ)) :
    rnd (m - 1) = m - 1 :=
  Rep_sub_one hm h1 h2

theorem roundEven_mono {x y : ℚ} (h : x ≤ y) : roundEven x ≤ roundEven y := by
  have hfl : ⌊x⌋ ≤ ⌊y⌋ := Int.floor_mono h
  rcases lt_or_eq_of_le hfl with hlt | heq
  · have hy : ⌊y⌋ ≤ roundEven y := le_roundEven (Int.floor_le y)
    rcases roundEven_cases x with h1 | ⟨h1, _⟩ <;> omega
  · unfold roundEven
    rw [← heq]
    have hxy : x - ⌊x⌋ ≤ y - ⌊x⌋ := by linarith
    split_ifs <;> first | omega | linarith

theorem roundEven_neg (x : ℚ) : roundEven (-x) = -roundEven x := by
  by_cases hint : (⌊x⌋ : ℚ) = x
  · rw [← hint, ← Int.cast_neg, roundEven_intCast, roundEven_intCast]
  · have hlt : (⌊x⌋ : ℚ) < x := lt_of_le_of_ne (Int.floor_le x) hint
    have hfl : ⌊-x⌋ = -⌊x⌋ - 1 := by
      rw [Int.floor_eq_iff]
      push_cast
      constructor
      · have := Int.lt_floor_add_one x
        linarith
      · linarith
    unfold roundEven
    rw [hfl]
    push_cast
    split_ifs <;> first | omega | linarith

theorem rnd_neg (x : ℚ) : rnd (-x) = -rnd x := by
  unfold rnd
  rw [ulpExp_neg, neg_div, roundEven_neg]
  push_cast
  ring

theorem rnd_nonneg {x : ℚ} (h : 0 ≤ x) : 0 ≤ rnd x := by
  unfold rnd
  have : (0 : ℤ) ≤ roundEven (x / 2 ^ ulpExp x) :=
    le_roundEven (by simpa using div_nonneg h (two_zpow_pos _).le)
  have h2 : (0 : ℚ) ≤ (roundEven (x / 2 ^ ulpExp x) : ℚ) := by exact_mod_cast this
  exact mul_nonneg h2 (two_zpow_pos _).le

theorem rnd_nonpos {x : ℚ} (h : x ≤ 0) : rnd x ≤ 0 := by
  have := rnd_nonneg (neg_nonneg.mpr h)
  rw [rnd_neg] at this
  linarith

theorem ulpExp_mono_pos {x y : ℚ} (hx : 0 < x) (h : x ≤ y) : ulpExp x ≤ ulpExp y := by
  unfold ulpExp
  rw [abs_of_pos hx, abs_of_pos (lt_of_lt_of_le hx h)]
  have := Int.log_mono_right (b := 2) hx h
  exact max_le_max (by omega) le_rfl

theorem rnd_mono_pos {x y : ℚ} (hx : 0 < x) (h : x ≤ y) : rnd x ≤ rnd y := by
  have hy : 0 < y := lt_of_lt_of_le hx h
  rcases lt_or_eq_of_le (ulpExp_mono_pos hx h) with hlt | heq
  · -- a power of two lies between the two values
    have huy : ulpExp y = Int.log 2 y - 52 := by
      have hge := ulpExp_ge x
      unfold ulpExp at hlt ⊢
      rw [abs_of_pos hy] at hlt ⊢
      apply max_eq_left
      by_contra hc
      rw [max_eq_right (by omega)] at hlt
      unfold ulpExp at hge
      omega
    have hlog : Int.log 2 x < Int.log 2 y := by
      by_contra hc
      have h1 : Int.log 2 y ≤ Int.log 2 x := by omega
      have : ulpExp y ≤ ulpExp x := by
        unfold ulpExp
        rw [abs_of_pos hx, abs_of_pos hy]
        exact max_le_max (by omega) le_rfl
      omega
    set L := Int.log 2 y with hL
    have hxL : x ≤ 2 ^ L := by
      have := lt_zpow_log_succ x
      exact le_trans this.le (two_zpow_le (by omega))
    have hLy : (2 : ℚ) ^ L ≤ y := zpow_log_le hy
    have hux : ulpExp x ≤ L := by
      have hge := ulpExp_ge y
      unfold ulpExp
      rw [abs_of_pos hx]
      exact max_le (by omega) (by omega)
    -- rnd x ≤ 2 ^ L
    have h1 : rnd x ≤ 2 ^ L := by
      unfold rnd
      obtain ⟨d, hd⟩ : ∃ d : ℕ, L = ulpExp x + d := ⟨(L - ulpExp x).toNat, by omega⟩
      have hsc : x / 2 ^ ulpExp x ≤ ((2 ^ d : ℤ) : ℚ) := by
        rw [div_le_iff₀ (two_zpow_pos _)]
        push_cast
        rw [← zpow_natCast, ← zpow_add₀ (by norm_num : (2 : ℚ) ≠ 0), add_comm, ← hd]
        exact hxL
      have hr := roundEven_le hsc
      have hr2 : (roundEven (x / 2 ^ ulpExp x) : ℚ) ≤ ((2 ^ d : ℤ) : ℚ) := by exact_mod_cast hr
      calc (roundEven (x / 2 ^ ulpExp x) : ℚ) * 2 ^ ulpExp x
          ≤ ((2 ^ d : ℤ) : ℚ) * 2 ^ ulpExp x :=
            mul_le_mul_of_nonneg_right hr2 (two_zpow_pos _).le
        _ = 2 ^ L := by
            push_cast
            rw [← zpow_natCast, ← zpow_add₀ (by norm_num : (2 : ℚ) ≠ 0), add_comm, ← hd]
    -- 2 ^ L ≤ rnd y
    have h2 : (2 : ℚ) ^ L ≤ rnd y := by
      unfold rnd
      rw [huy]
      have hsc : (((2 ^ 52 : ℤ)) : ℚ) ≤ y / 2 ^ (L - 52) := by
        rw [le_div_iff₀ (two_zpow_pos _)]
        have : (((2 ^ 52 : ℤ)) : ℚ) = 2 ^ (52 : ℤ) := by norm_num
        rw [this, ← zpow_add₀ (by norm_num : (2 : ℚ) ≠ 0)]
        have : (52 : ℤ) + (L - 52) = L := by ring
        rw [this]
        exact hLy
      have hr := le_roundEven hsc
      have hr2 : (((2 ^ 52 : ℤ)) : ℚ) ≤ (roundEven (y / 2 ^ (L - 52)) : ℚ) := by exact_mod_cast hr
      calc (2 : ℚ) ^ L = (((2 ^ 52 : ℤ)) : ℚ) * 2 ^ (L - 52) := by
            have : (((2 ^ 52 : ℤ)) : ℚ) = 2 ^ (52 : ℤ) := by norm_num
            rw [this, ← zpow_add₀ (by norm_num : (2 : ℚ) ≠ 0)]
            congr 1
            ring
        _ ≤ (roundEven (y / 2 ^ (L - 52)) : ℚ) * 2 ^ (L - 52) :=
            mul_le_mul_of_nonneg_right hr2 (two_zpow_pos _).le
    exact le_trans h1 h2
  · unfold rnd
    rw [← heq]
    have hsc : x / 2 ^ ulpExp x ≤ y / 2 ^ ulpExp x :=
      div_le_div_of_nonneg_right h (two_zpow_pos _).le
    have hr := roundEven_mono hsc
    have hr2 : (roundEven (x / 2 ^ ulpExp x) : ℚ) ≤ (roundEven (y / 2 ^ ulpExp x) : ℚ) := by
      exact_mod_cast hr
    exact mul_le_mul_of_nonneg_right hr2 (two_zpow_pos _).le

/-- Rounding is monotone. -/
theorem rnd_mono {x y : ℚ} (h : x ≤ y) : rnd x ≤ rnd y := by
  rcases lt_trichotomy 0 x with hx | hx | hx
  · exact rnd_mono_pos hx h
  · rw [← hx, rnd_zero]
    exact rnd_nonneg (hx ▸ h)
  · rcases le_or_lt 0 y with hy | hy
    · exact le_trans (rnd_nonpos hx.le) (rnd_nonneg hy)
    · have := rnd_mono_pos (neg_pos.mpr hy) (neg_le_neg h)
      rw [rnd_neg, rnd_neg] at this
      linarith

theorem le_rnd {a x : ℚ} (ha : Rep a) (h : a ≤ x) : a ≤ rnd x := by
  have := rnd_mono h
  rwa [ha] at this

theorem rnd_le {b x : ℚ} (hb : Rep b) (h : x ≤ b) : rnd x ≤ b := by
  have := rnd_mono h
  rwa [hb] at this

/-- Evaluation of `rnd` at a positive value in the normal range, by the
mantissa `k` and the binade `e` of the result. -/
theorem rnd_eval (x y : ℚ) (e k : ℤ) (h1 : (2 : ℚ) ^ e ≤ x) (h2 : x < 2 ^ (e + 1))
    (he : -1022 ≤ e) (hk1 : (k : ℚ) - 1 / 2 < x / 2 ^ (e - 52))
    (hk2 : x / 2 ^ (e - 52) < k + 1 / 2) (hy : y = (k : ℚ) * 2 ^ (e - 52)) : rnd x = y := by
  rw [hy]
  refine rnd_eq_of_bounds x e k (lt_of_lt_of_le (two_zpow_pos e) h1) h1 h2 he ?_
  rw [abs_lt]
  constructor <;> linarith

/-- Evaluation of `rnd` at a binary64 value `k * 2 ^ e`. -/
theorem rnd_exact (x : ℚ) (k e : ℤ) (hk1 : -9007199254740992 ≤ k) (hk2 : k ≤ 9007199254740992)
    (he : -1074 ≤ e) (hx : x = (k : ℚ) * 2 ^ e) : rnd x = x := by
  rw [hx]
  exact rnd_of_repr k e (abs_le.mpr ⟨by norm_num; exact hk1, by norm_num; exact hk2⟩) he

theorem add_zero_right {a : ℚ} (ha : Rep a) : add a 0 = a := by
  unfold add
  rw [add_zero]
  exact ha

theorem Seconds_zero_f64 : Seconds 0 = 0 := by
  simp [Seconds, add, div, ofInt, rnd_zero]

theorem increment_zero (cfg : APIKeyConfig) : increment cfg 0 = 0 := by
  simp [increment, Seconds_zero_f64, mul, div, rnd_zero]

theorem Rep_increment (cfg : APIKeyConfig) (d : Int) : Rep (increment cfg d) :=
  Rep_rnd _

theorem Seconds_nonneg_f64 {d : Int} (h : 0 ≤ d) : 0 ≤ Seconds d := by
  unfold Seconds add div ofInt
  have hq : (0 : ℚ) ≤ ((d.tdiv 1000000000 : Int) : ℚ) := by
    exact_mod_cast Int.tdiv_nonneg h (by norm_num)
  have hr : (0 : ℚ) ≤ ((d.tmod 1000000000 : Int) : ℚ) := by
    exact_mod_cast Int.tmod_nonneg _ h
  exact rnd_nonneg (add_nonneg (rnd_nonneg hq)
    (rnd_nonneg (div_nonneg (rnd_nonneg hr) (by norm_num))))

theorem increment_nonneg (cfg : APIKeyConfig) {d : Int} (hrate : 0 ≤ cfg.RatePerMin)
    (h : 0 ≤ d) : 0 ≤ increment cfg d := by
  unfold increment div mul
  exact rnd_nonneg (div_nonneg (rnd_nonneg (mul_nonneg (Seconds_nonneg_f64 h) hrate)) (by norm_num))

theorem allowLocal_absent_f64 (rl : RateLimiter) (key : String) (cfg : APIKeyConfig) (now : Time)
    (h : rl.«local» key = none) :
    allowLocal rl key cfg now = (true, rl.store key ⟨sub cfg.Capacity 1, now⟩) := by
  simp [allowLocal, h]

theorem allowLocal_existing_f64 (rl : RateLimiter) (key : String) (cfg : APIKeyConfig) (now : Time)
    (tb : TokenBucket) (h : rl.«local» key = some tb) :
    allowLocal rl key cfg now =
      if refilled cfg tb now < 1 then (false, rl.store key ⟨refilled cfg tb now, now⟩)
      else (true, rl.store key ⟨sub (refilled cfg tb now) 1, now⟩) := by
  simp [allowLocal, h, min_eq, refilled, increment, Time.Sub]

theorem refilled_same_instant_f64 (cfg : APIKeyConfig) (x : ℚ) (now : Time) (hx : Rep x)
    (h : x ≤ cfg.Capacity) : refilled cfg ⟨x, now⟩ now = x := by
  simp [refilled, increment_zero, add_zero_right hx, h]

theorem runLocal_cons_f64 (rl : RateLimiter) (c : Call) (cs : List Call) :
    (runLocal rl (c :: cs)).1 =
      (allowLocal rl c.key c.cfg c.now).1 :: (runLocal (allowLocal rl c.key c.cfg c.now).2 cs).1 :=
  rfl


theorem roundEven_eq_of_tie (x : ℚ) (k : ℤ) (hk : k % 2 = 0) (h : |x - k| = 1 / 2) :
    roundEven x = k := by
  rcases abs_eq (by norm_num : (0 : ℚ) ≤ 1 / 2) |>.mp h with h1 | h1
  · have hf : ⌊x⌋ = k := Int.floor_eq_iff.mpr ⟨by linarith, by linarith⟩
    unfold roundEven
    rw [hf, if_neg (by linarith), if_neg (by linarith), if_pos hk]
  · have hf : ⌊x⌋ = k - 1 := Int.floor_eq_iff.mpr ⟨by push_cast; linarith, by push_cast; linarith⟩
    unfold roundEven
    rw [hf]
    push_cast
    rw [if_neg (by linarith), if_neg (by linarith), if_neg (by omega)]
    ring

/-- Evaluation of `rnd` at a positive value in the normal range that lies
halfway between two binary64 values: the even mantissa `k` is taken. -/
theorem rnd_eval_tie (x y : ℚ) (e k : ℤ) (h1 : (2 : ℚ) ^ e ≤ x) (h2 : x < 2 ^ (e + 1))
    (he : -1022 ≤ e) (hk : k % 2 = 0) (hh : |x / 2 ^ (e - 52) - k| = 1 / 2)
    (hy : y = (k : ℚ) * 2 ^ (e - 52)) : rnd x = y := by
  rw [hy]
  unfold rnd
  rw [ulpExp_of_bounds (lt_of_lt_of_le (two_zpow_pos e) h1) h1 h2 he,
    roundEven_eq_of_tie _ k hk hh]
/-! ## Bursts at one instant, rounded -/

theorem zero_add_left {a : ℚ} (ha : Rep a) : add 0 a = a := by
  unfold add
  rw [zero_add]
  exact ha

theorem Rep_min {a b : ℚ} (ha : Rep a) (hb : Rep b) : Rep (Min.min a b) := by
  rcases le_total a b with h | h
  · rwa [min_eq_left h]
  · rwa [min_eq_right h]

theorem two_pow_53 : (2 : ℚ) ^ (53 : ℤ) = 9007199254740992 := by norm_num

theorem sub_one_exact {m : ℚ} (hm : Rep m) (h1 : 1 ≤ m) (h2 : m ≤ 9007199254740992) :
    sub m 1 = m - 1 :=
  rnd_sub_one hm h1 (two_pow_53 ▸ h2)

/-- A bucket holding the binary64 value `x`, `n ≤ x < n + 1`, checked `n + 1`
times at the instant of its last update, admits `n` calls and denies the
next: below `2 ^ 53` every charge `x - 1` is exact. -/
theorem runLocal_drain_f64 (key : String) (cfg : APIKeyConfig) (now : Time) (n : ℕ) :
    ∀ (rl : RateLimiter) (x : ℚ), rl.«local» key = some ⟨x, now⟩ → Rep x → (n : ℚ) ≤ x →
      x < n + 1 → x ≤ cfg.Capacity → x ≤ 9007199254740992 →
      (runLocal rl (List.replicate (n + 1) ⟨key, cfg, now⟩)).1 =
        List.replicate n true ++ [false] := by
  induction n with
  | zero =>
    intro rl x hb hx _ hlt hcap _
    have hx1 : x < 1 := by simpa using hlt
    simp [runLocal, allowLocal_existing_f64 rl key cfg now _ hb,
      refilled_same_instant_f64 cfg x now hx hcap, hx1]
  | succ m ih =>
    intro rl x hb hx hm hlt hcap hmax
    have hx1 : ¬ x < 1 := by
      push_cast at hm
      have : (0 : ℚ) ≤ m := Nat.cast_nonneg m
      linarith
    rw [List.replicate_succ, runLocal_cons_f64]
    simp only [allowLocal_existing_f64 rl key cfg now _ hb,
      refilled_same_instant_f64 cfg x now hx hcap, hx1, if_false]
    rw [sub_one_exact hx (not_lt.mp hx1) hmax]
    rw [ih (rl.store key ⟨x - 1, now⟩) (x - 1) (store_same _ _ _)
      (Rep_sub_one hx (not_lt.mp hx1) (two_pow_53 ▸ hmax)) (by push_cast at hm; linarith)
      (by push_cast at hlt; linarith) (by linarith) (by linarith)]
    rfl

theorem refilled_from_zero (cfg : APIKeyConfig) (t : Time) (dt : Int) :
    refilled cfg ⟨0, t⟩ (t + dt) = Min.min cfg.Capacity (increment cfg dt) := by
  unfold refilled
  simp only []
  rw [show t + dt - t = dt from by ring, zero_add_left (Rep_increment cfg dt)]

/-- The burst that follows a refill from 0 tokens admits `⌊m⌋` calls and
denies the next, `m` being the refilled count in binary64. -/
theorem runLocal_after_refill_f64 (rl : RateLimiter) (key : String) (cfg : APIKeyConfig)
    (t : Time) (dt : Int) (hC : Rep cfg.Capacity) (hmax : cfg.Capacity ≤ 9007199254740992)
    (hb : rl.«local» key = some ⟨0, t⟩) :
    (runLocal rl (List.replicate (⌊Min.min cfg.Capacity (increment cfg dt)⌋₊ + 1)
        ⟨key, cfg, t + dt⟩)).1 =
      List.replicate ⌊Min.min cfg.Capacity (increment cfg dt)⌋₊ true ++ [false] := by
  have hr := refilled_from_zero cfg t dt
  set m := Min.min cfg.Capacity (increment cfg dt) with hm
  have hmF : Rep m := Rep_min hC (Rep_increment cfg dt)
  have hmc : m ≤ cfg.Capacity := min_le_left _ _
  rw [List.replicate_succ, runLocal_cons_f64]
  simp only [allowLocal_existing_f64 rl key cfg (t + dt) _ hb, hr]
  by_cases h1 : m < 1
  · have hf : ⌊m⌋₊ = 0 := Nat.floor_eq_zero.mpr h1
    simp [h1, hf, runLocal]
  · have h1le : 1 ≤ m := not_lt.mp h1
    have hm0 : 0 ≤ m := by linarith
    obtain ⟨k, hk⟩ : ∃ k, ⌊m⌋₊ = k + 1 :=
      ⟨⌊m⌋₊ - 1, by have := Nat.floor_pos.mpr h1le; omega⟩
    have hlo : ((k : ℚ) + 1) ≤ m := by
      have := Nat.floor_le hm0
      rw [hk] at this
      exact_mod_cast this
    have hhi : m < (k : ℚ) + 1 + 1 := by
      have := Nat.lt_floor_add_one m
      rw [hk] at this
      exact_mod_cast this
    simp only [h1, if_false, hk]
    rw [sub_one_exact hmF h1le (by linarith)]
    rw [runLocal_drain_f64 key cfg (t + dt) k (rl.store key ⟨m - 1, t + dt⟩) (m - 1)
      (store_same _ _ _) (Rep_sub_one hmF h1le (two_pow_53 ▸ (by linarith))) (by linarith)
      (by linarith) (by linarith) (by linarith)]
    rfl

theorem refilled_of_elapsed (cfg : APIKeyConfig) (tb : TokenBucket) (now : Time) (d : Int)
    (h : now - tb.LastUpdated = d) :
    refilled cfg tb now = Min.min cfg.Capacity (add tb.Tokens (increment cfg d)) := by
  rw [← h]
  rfl

/-! ## Refills evaluated at the inputs of the closed statements -/

theorem refilled_20ms :
    refilled satoshi ⟨0, 0⟩ 20000000 = 4803839602528529 / 144115188075855872 := by
  rw [refilled_of_elapsed satoshi ⟨0, 0⟩ 20000000 (20000000) (by decide)]
  unfold increment Seconds
  rw [show Int.tdiv (20000000) 1000000000 = 0 from by decide,
    show Int.tmod (20000000) 1000000000 = 20000000 from by decide]
  simp only [add, div, mul, ofInt, satoshi]
  push_cast
  rw [rnd_exact 0 0 0 (by norm_num) (by norm_num) (by norm_num) (by norm_num)]
  rw [rnd_exact 20000000 78125 8 (by norm_num) (by norm_num) (by norm_num) (by norm_num)]
  rw [rnd_eval (20000000 / 1000000000) (5764607523034235 / 288230376151711744) (-6) 5764607523034235 (by norm_num) (by norm_num) (by norm_num) (by norm_num) (by norm_num) (by norm_num)]
  rw [rnd_exact (0 + (5764607523034235 / 288230376151711744)) 5764607523034235 (-58) (by norm_num) (by norm_num) (by norm_num) (by norm_num)]
  rw [rnd_eval ((0 + (5764607523034235 / 288230376151711744)) * 100) 2 1 4503599627370496 (by norm_num) (by norm_num) (by norm_num) (by norm_num) (by norm_num) (by norm_num)]
  rw [rnd_eval (2 / 60) (4803839602528529 / 144115188075855872) (-5) 4803839602528529 (by norm_num) (by norm_num) (by norm_num) (by norm_num) (by norm_num) (by norm_num)]
  rw [rnd_exact (0 + (4803839602528529 / 144115188075855872)) 4803839602528529 (-57) (by norm_num) (by norm_num) (by norm_num) (by norm_num)]
  norm_num

theorem refilled_20ms_600ms :
    refilled satoshi ⟨4803839602528529 / 144115188075855872, 20000000⟩ 600000000 = 9007199254740991 / 9007199254740992 := by
  rw [refilled_of_elapsed satoshi ⟨4803839602528529 / 144115188075855872, 20000000⟩ 600000000 (580000000) (by decide)]
  unfold increment Seconds
  rw [show Int.tdiv (580000000) 1000000000 = 0 from by decide,
    show Int.tmod (580000000) 1000000000 = 580000000 from by decide]
  simp only [add, div, mul, ofInt, satoshi]
  push_cast
  rw [rnd_exact 0 0 0 (by norm_num) (by norm_num) (by norm_num) (by norm_num)]
  rw [rnd_exact 580000000 2265625 8 (by norm_num) (by norm_num) (by norm_num) (by norm_num)]
  rw [rnd_eval (580000000 / 1000000000) (5224175567749775 / 9007199254740992) (-1) 5224175567749775 (by norm_num) (by norm_num) (by norm_num) (by norm_num) (by norm_num) (by norm_num)]
  rw [rnd_exact (0 + (5224175567749775 / 9007199254740992)) 5224175567749775 (-53) (by norm_num) (by norm_num) (by norm_num) (by norm_num)]
  rw [rnd_eval ((0 + (5224175567749775 / 9007199254740992)) * 100) (8162774324609023 / 140737488355328) 5 8162774324609023 (by norm_num) (by norm_num) (by norm_num) (by norm_num) (by norm_num) (by norm_num)]
  rw [rnd_eval ((8162774324609023 / 140737488355328) / 60) (4353479639791479 / 4503599627370496) (-1) 8706959279582958 (by norm_num) (by norm_num) (by norm_num) (by norm_num) (by norm_num) (by norm_num)]
  rw [rnd_eval ((4803839602528529 / 144115188075855872) + (4353479639791479 / 4503599627370496)) (9007199254740991 / 9007199254740992) (-1) 9007199254740991 (by norm_num) (by norm_num) (by norm_num) (by norm_num) (by norm_num) (by norm_num)]
  norm_num

theorem refilled_600ms :
    refilled satoshi ⟨0, 0⟩ 600000000 = 1 := by
  rw [refilled_of_elapsed satoshi ⟨0, 0⟩ 600000000 (600000000) (by decide)]
  unfold increment Seconds
  rw [show Int.tdiv (600000000) 1000000000 = 0 from by decide,
    show Int.tmod (600000000) 1000000000 = 600000000 from by decide]
  simp only [add, div, mul, ofInt, satoshi]
  push_cast
  rw [rnd_exact 0 0 0 (by norm_num) (by norm_num) (by norm_num) (by norm_num)]
  rw [rnd_exact 600000000 1171875 9 (by norm_num) (by norm_num) (by norm_num) (by norm_num)]
  rw [rnd_eval (600000000 / 1000000000) (5404319552844595 / 9007199254740992) (-1) 5404319552844595 (by norm_num) (by norm_num) (by norm_num) (by norm_num) (by norm_num) (by norm_num)]
  rw [rnd_exact (0 + (5404319552844595 / 9007199254740992)) 5404319552844595 (-53) (by norm_num) (by norm_num) (by norm_num) (by norm_num)]
  rw [rnd_eval ((0 + (5404319552844595 / 9007199254740992)) * 100) 60 5 8444249301319680 (by norm_num) (by norm_num) (by norm_num) (by norm_num) (by norm_num) (by norm_num)]
  rw [rnd_exact (60 / 60) 1 0 (by norm_num) (by norm_num) (by norm_num) (by norm_num)]
  rw [rnd_exact (0 + (60 / 60)) 1 0 (by norm_num) (by norm_num) (by norm_num) (by norm_num)]
  norm_num

theorem refilled_375ms :
    refilled satoshi ⟨0, 0⟩ 375000000 = 5 / 8 := by
  rw [refilled_of_elapsed satoshi ⟨0, 0⟩ 375000000 (375000000) (by decide)]
  unfold increment Seconds
  rw [show Int.tdiv (375000000) 1000000000 = 0 from by decide,
    show Int.tmod (375000000) 1000000000 = 375000000 from by decide]
  simp only [add, div, mul, ofInt, satoshi]
  push_cast
  rw [rnd_exact 0 0 0 (by norm_num) (by norm_num) (by norm_num) (by norm_num)]
  rw [rnd_exact 375000000 5859375 6 (by norm_num) (by norm_num) (by norm_num) (by norm_num)]
  rw [rnd_exact (375000000 / 1000000000) 3 (-3) (by norm_num) (by norm_num) (by norm_num) (by norm_num)]
  rw [rnd_exact (0 + (375000000 / 1000000000)) 3 (-3) (by norm_num) (by norm_num) (by norm_num) (by norm_num)]
  rw [rnd_exact ((0 + (375000000 / 1000000000)) * 100) 75 (-1) (by norm_num) (by norm_num) (by norm_num) (by norm_num)]
  rw [rnd_exact (((0 + (375000000 / 1000000000)) * 100) / 60) 5 (-3) (by norm_num) (by norm_num) (by norm_num) (by norm_num)]
  rw [rnd_exact (0 + (((0 + (375000000 / 1000000000)) * 100) / 60)) 5 (-3) (by norm_num) (by norm_num) (by norm_num) (by norm_num)]
  norm_num

theorem refilled_backwards :
    refilled satoshi ⟨5, 60000000000⟩ 0 = -95 := by
  rw [refilled_of_elapsed satoshi ⟨5, 60000000000⟩ 0 (-60000000000) (by decide)]
  unfold increment Seconds
  rw [show Int.tdiv (-60000000000) 1000000000 = -60 from by decide,
    show Int.tmod (-60000000000) 1000000000 = 0 from by decide]
  simp only [add, div, mul, ofInt, satoshi]
  push_cast
  rw [rnd_exact (-60) (-15) 2 (by norm_num) (by norm_num) (by norm_num) (by norm_num)]
  rw [rnd_exact 0 0 0 (by norm_num) (by norm_num) (by norm_num) (by norm_num)]
  rw [rnd_exact (0 / 1000000000) 0 0 (by norm_num) (by norm_num) (by norm_num) (by norm_num)]
  rw [rnd_exact ((-60) + (0 / 1000000000)) (-15) 2 (by norm_num) (by norm_num) (by norm_num) (by norm_num)]
  rw [rnd_exact (((-60) + (0 / 1000000000)) * 100) (-375) 4 (by norm_num) (by norm_num) (by norm_num) (by norm_num)]
  rw [rnd_exact ((((-60) + (0 / 1000000000)) * 100) / 60) (-25) 2 (by norm_num) (by norm_num) (by norm_num) (by norm_num)]
  rw [rnd_exact (5 + ((((-60) + (0 / 1000000000)) * 100) / 60)) (-95) 0 (by norm_num) (by norm_num) (by norm_num) (by norm_num)]
  norm_num

theorem refilled_zero_elapsed :
    refilled satoshi ⟨5, 60000000000⟩ 60000000000 = 5 := by
  rw [refilled_of_elapsed satoshi ⟨5, 60000000000⟩ 60000000000 (0) (by decide)]
  unfold increment Seconds
  rw [show Int.tdiv (0) 1000000000 = 0 from by decide,
    show Int.tmod (0) 1000000000 = 0 from by decide]
  simp only [add, div, mul, ofInt, satoshi]
  push_cast
  rw [rnd_exact 0 0 0 (by norm_num) (by norm_num) (by norm_num) (by norm_num)]
  rw [rnd_exact (0 / 1000000000) 0 0 (by norm_num) (by norm_num) (by norm_num) (by norm_num)]
  rw [rnd_exact (0 + (0 / 1000000000)) 0 0 (by norm_num) (by norm_num) (by norm_num) (by norm_num)]
  rw [rnd_exact ((0 + (0 / 1000000000)) * 100) 0 0 (by norm_num) (by norm_num) (by norm_num) (by norm_num)]
  rw [rnd_exact (((0 + (0 / 1000000000)) * 100) / 60) 0 0 (by norm_num) (by norm_num) (by norm_num) (by norm_num)]
  rw [rnd_exact (5 + (((0 + (0 / 1000000000)) * 100) / 60)) 5 0 (by norm_num) (by norm_num) (by norm_num) (by norm_num)]
  norm_num

theorem refilled_wide_1s :
    refilled wide ⟨0, 0⟩ 1000000000 = 18014398509481984 := by
  rw [refilled_of_elapsed wide ⟨0, 0⟩ 1000000000 (1000000000) (by decide)]
  unfold increment Seconds
  rw [show Int.tdiv (1000000000) 1000000000 = 1 from by decide,
    show Int.tmod (1000000000) 1000000000 = 0 from by decide]
  simp only [add, div, mul, ofInt, wide]
  push_cast
  rw [rnd_exact 1 1 0 (by norm_num) (by norm_num) (by norm_num) (by norm_num)]
  rw [rnd_exact 0 0 0 (by norm_num) (by norm_num) (by norm_num) (by norm_num)]
  rw [rnd_exact (0 / 1000000000) 0 0 (by norm_num) (by norm_num) (by norm_num) (by norm_num)]
  rw [rnd_exact (1 + (0 / 1000000000)) 1 0 (by norm_num) (by norm_num) (by norm_num) (by norm_num)]
  rw [rnd_exact ((1 + (0 / 1000000000)) * 1080863910568919040) 15 56 (by norm_num) (by norm_num) (by norm_num) (by norm_num)]
  rw [rnd_exact (((1 + (0 / 1000000000)) * 1080863910568919040) / 60) 1 54 (by norm_num) (by norm_num) (by norm_num) (by norm_num)]
  rw [rnd_exact (0 + (((1 + (0 / 1000000000)) * 1080863910568919040) / 60)) 1 54 (by norm_num) (by norm_num) (by norm_num) (by norm_num)]
  norm_num

theorem refilled_wide_same_instant :
    refilled wide ⟨18014398509481984, 1000000000⟩ 1000000000 = 18014398509481984 := by
  rw [refilled_of_elapsed wide ⟨18014398509481984, 1000000000⟩ 1000000000 (0) (by decide)]
  unfold increment Seconds
  rw [show Int.tdiv (0) 1000000000 = 0 from by decide,
    show Int.tmod (0) 1000000000 = 0 from by decide]
  simp only [add, div, mul, ofInt, wide]
  push_cast
  rw [rnd_exact 0 0 0 (by norm_num) (by norm_num) (by norm_num) (by norm_num)]
  rw [rnd_exact (0 / 1000000000) 0 0 (by norm_num) (by norm_num) (by norm_num) (by norm_num)]
  rw [rnd_exact (0 + (0 / 1000000000)) 0 0 (by norm_num) (by norm_num) (by norm_num) (by norm_num)]
  rw [rnd_exact ((0 + (0 / 1000000000)) * 1080863910568919040) 0 0 (by norm_num) (by norm_num) (by norm_num) (by norm_num)]
  rw [rnd_exact (((0 + (0 / 1000000000)) * 1080863910568919040) / 60) 0 0 (by norm_num) (by norm_num) (by norm_num) (by norm_num)]
  rw [rnd_exact (18014398509481984 + (((0 + (0 / 1000000000)) * 1080863910568919040) / 60)) 1 54 (by norm_num) (by norm_num) (by norm_num) (by norm_num)]
  norm_num

theorem sub_one_wide : sub 18014398509481984 1 = 18014398509481984 := by
  unfold sub
  rw [rnd_eval_tie (18014398509481984 - 1) 18014398509481984 53 9007199254740992 (by norm_num) (by norm_num) (by norm_num) (by decide) (by norm_num [abs_of_pos, abs_of_neg]) (by norm_num)]
theorem increment_10200ms : increment satoshi 10200000000 = 4785074604081151 / 281474976710656 := by
  unfold increment Seconds
  rw [show Int.tdiv 10200000000 1000000000 = 10 from by decide,
    show Int.tmod 10200000000 1000000000 = 200000000 from by decide]
  simp only [add, div, mul, ofInt, satoshi]
  push_cast
  rw [rnd_exact 10 5 1 (by norm_num) (by norm_num) (by norm_num) (by norm_num)]
  rw [rnd_exact 200000000 390625 9 (by norm_num) (by norm_num) (by norm_num) (by norm_num)]
  rw [rnd_eval (200000000 / 1000000000) (3602879701896397 / 18014398509481984) (-3) 7205759403792794 (by norm_num) (by norm_num) (by norm_num) (by norm_num) (by norm_num) (by norm_num)]
  rw [rnd_eval (10 + (3602879701896397 / 18014398509481984)) (2871044762448691 / 281474976710656) 3 5742089524897382 (by norm_num) (by norm_num) (by norm_num) (by norm_num) (by norm_num) (by norm_num)]
  rw [rnd_eval ((2871044762448691 / 281474976710656) * 100) (8972014882652159 / 8796093022208) 9 8972014882652159 (by norm_num) (by norm_num) (by norm_num) (by norm_num) (by norm_num) (by norm_num)]
  rw [rnd_eval ((8972014882652159 / 8796093022208) / 60) (4785074604081151 / 281474976710656) 4 4785074604081151 (by norm_num) (by norm_num) (by norm_num) (by norm_num) (by norm_num) (by norm_num)]

theorem increment_6s : increment satoshi 6000000000 = 10 := by
  unfold increment Seconds
  rw [show Int.tdiv 6000000000 1000000000 = 6 from by decide,
    show Int.tmod 6000000000 1000000000 = 0 from by decide]
  simp only [add, div, mul, ofInt, satoshi]
  push_cast
  rw [rnd_exact 6 3 1 (by norm_num) (by norm_num) (by norm_num) (by norm_num)]
  rw [rnd_exact 0 0 0 (by norm_num) (by norm_num) (by norm_num) (by norm_num)]
  rw [rnd_exact (0 / 1000000000) 0 0 (by norm_num) (by norm_num) (by norm_num) (by norm_num)]
  rw [rnd_exact (6 + (0 / 1000000000)) 3 1 (by norm_num) (by norm_num) (by norm_num) (by norm_num)]
  rw [rnd_exact ((6 + (0 / 1000000000)) * 100) 75 3 (by norm_num) (by norm_num) (by norm_num) (by norm_num)]
  rw [rnd_exact (((6 + (0 / 1000000000)) * 100) / 60) 5 1 (by norm_num) (by norm_num) (by norm_num) (by norm_num)]
  norm_num

theorem Rep_satoshi_capacity : Rep satoshi.Capacity := by
  unfold Rep
  simp only [satoshi]
  rw [rnd_exact 100 25 2 (by norm_num) (by norm_num) (by norm_num) (by norm_num)]

theorem F64_satoshi_capacity : F64 satoshi.Capacity :=
  ⟨Rep_satoshi_capacity, by norm_num [satoshi], by norm_num [satoshi]⟩

/-! ## Refill after exhaustion -/

/-- C3, as stated, fails: under the policy 100 per minute, capacity 100, a
bucket exhausted to 0 tokens and checked 10.2 s later is refilled to
`16.999999999999996` (the product `10.2 * 100` and the quotient by 60 round
down), so 16 calls are admitted and the 17th is denied, while
`⌊min(C, dt * R / 60)⌋ = 17`.  And with capacity `2 ^ 54` a bucket refilled to
the capacity is left at the capacity by every admitted call, `2 ^ 54 - 1`
rounding to `2 ^ 54`: the burst is never denied. -/
theorem refill_after_exhaustion_counterexample :
    (runLocal (oneBucket "iot-node-satoshi" ⟨0, 0⟩)
        (List.replicate 17 ⟨"iot-node-satoshi", satoshi, 10200000000⟩)).1 =
      List.replicate 16 true ++ [false] ∧
    ⌊Min.min satoshi.Capacity
      (internal.Seconds 10200000000 * satoshi.RatePerMin / 60)⌋₊ = 17 ∧
    allowLocal (oneBucket "k" ⟨0, 0⟩) "k" wide 1000000000 =
      (true, oneBucket "k" ⟨18014398509481984, 1000000000⟩) ∧
    allowLocal (oneBucket "k" ⟨18014398509481984, 1000000000⟩) "k" wide 1000000000 =
      (true, oneBucket "k" ⟨18014398509481984, 1000000000⟩) := by
  refine ⟨?_, ?_, ?_, ?_⟩
  rotate_left 2
  · rw [allowLocal_existing_f64 (oneBucket "k" ⟨0, 0⟩) "k" wide 1000000000 ⟨0, 0⟩
      (store_same _ _ _), refilled_wide_1s, sub_one_wide]
    norm_num [oneBucket, store_store]
  · rw [allowLocal_existing_f64 (oneBucket "k" ⟨18014398509481984, 1000000000⟩) "k" wide
      1000000000 ⟨18014398509481984, 1000000000⟩ (store_same _ _ _),
      refilled_wide_same_instant, sub_one_wide]
    norm_num [oneBucket, store_store]
  · have h := runLocal_after_refill_f64 (oneBucket "iot-node-satoshi" ⟨0, 0⟩)
      "iot-node-satoshi" satoshi 0 10200000000 Rep_satoshi_capacity
      (by norm_num [satoshi]) (store_same _ _ _)
    have hf : ⌊Min.min satoshi.Capacity (increment satoshi 10200000000)⌋₊ = 16 := by
      rw [increment_10200ms, Nat.floor_eq_iff (by norm_num [satoshi])]
      norm_num [satoshi]
    rw [hf] at h
    exact h
  · rw [Nat.floor_eq_iff (by norm_num [satoshi, internal.Seconds])]
    norm_num [satoshi, internal.Seconds]

/-- C3, amended: for a policy whose capacity `C` is a binary64 value with
`1 ≤ C ≤ 2 ^ 53`, a bucket exhausted to 0 tokens at `t` and checked `dt`
nanoseconds later by calls at one instant admits `⌊min(C, r)⌋` calls and denies
the next, where `r` is the binary64 result of `Seconds(dt) * R / 60` as the
code computes it; the first of these checks is admitted exactly when `r ≥ 1`;
and `r = dt * R / 60` (`dt` in seconds) when none of the three operations
rounds. -/
theorem refill_after_exhaustion_f64 (rl : RateLimiter) (key : String) (cfg : APIKeyConfig)
    (t : Time) (dt : Int) (hC : F64 cfg.Capacity) (hcap : 1 ≤ cfg.Capacity)
    (hmax : cfg.Capacity ≤ 9007199254740992) (hb : rl.«local» key = some ⟨0, t⟩) :
    (runLocal rl (List.replicate (⌊Min.min cfg.Capacity (increment cfg dt)⌋₊ + 1)
        ⟨key, cfg, t + dt⟩)).1 =
      List.replicate ⌊Min.min cfg.Capacity (increment cfg dt)⌋₊ true ++ [false] ∧
    ((allowLocal rl key cfg (t + dt)).1 = true ↔ 1 ≤ increment cfg dt) ∧
    (Seconds dt = internal.Seconds dt → F64 (internal.Seconds dt * cfg.RatePerMin) →
      F64 (internal.Seconds dt * cfg.RatePerMin / 60) →
      increment cfg dt = internal.Seconds dt * cfg.RatePerMin / 60) := by
  refine ⟨runLocal_after_refill_f64 rl key cfg t dt hC.1 hmax hb, ?_, ?_⟩
  · rw [allowLocal_existing_f64 rl key cfg (t + dt) _ hb, refilled_from_zero]
    have hiff : ¬ Min.min cfg.Capacity (increment cfg dt) < 1 ↔ 1 ≤ increment cfg dt := by
      rw [not_lt, le_min_iff]
      exact ⟨fun h => h.2, fun h => ⟨hcap, h⟩⟩
    by_cases h1 : Min.min cfg.Capacity (increment cfg dt) < 1
    · simp only [h1, if_true]
      constructor
      · intro h
        simp at h
      · intro h
        exact absurd (hiff.mpr h) (not_not.mpr h1)
    · simp only [h1, if_false]
      simpa using hiff.mp h1
  · intro hs h1 h2
    unfold increment mul div
    rw [hs, h1.1, h2.1]

theorem refill_after_exhaustion_f64_witness :
    (runLocal (oneBucket "iot-node-satoshi" ⟨0, 0⟩)
        (List.replicate 11 ⟨"iot-node-satoshi", satoshi, 6000000000⟩)).1 =
      List.replicate 10 true ++ [false] := by
  have h := (refill_after_exhaustion_f64 (oneBucket "iot-node-satoshi" ⟨0, 0⟩)
    "iot-node-satoshi" satoshi 0 6000000000 F64_satoshi_capacity (by norm_num [satoshi])
    (by norm_num [satoshi]) (store_same _ _ _)).1
  have hf : ⌊Min.min satoshi.Capacity (increment satoshi 6000000000)⌋₊ = 10 := by
    rw [increment_6s, Nat.floor_eq_iff (by norm_num [satoshi])]
    norm_num [satoshi]
  rw [hf] at h
  exact h

theorem Rep_of_eq (x : ℚ) (k e : ℤ) (hk1 : -9007199254740992 ≤ k) (hk2 : k ≤ 9007199254740992)
    (he : -1074 ≤ e) (hx : x = (k : ℚ) * 2 ^ e) : Rep x :=
  rnd_exact x k e hk1 hk2 he hx

theorem F64_of_eq (x : ℚ) (k e : ℤ) (hk1 : -9007199254740992 ≤ k) (hk2 : k ≤ 9007199254740992)
    (he : -1074 ≤ e) (hx : x = (k : ℚ) * 2 ^ e) (hlo : -(2 ^ 1024) < x) (hhi : x < 2 ^ 1024) :
    F64 x :=
  ⟨rnd_exact x k e hk1 hk2 he hx, hlo, hhi⟩

theorem ExactRefill_of_elapsed (cfg : APIKeyConfig) (tb : TokenBucket) (now : Time) (d : Int)
    (hd : now - tb.LastUpdated = d) (h1 : Seconds d = internal.Seconds d)
    (h2 : F64 (internal.Seconds d * cfg.RatePerMin))
    (h3 : F64 (internal.Seconds d * cfg.RatePerMin / 60))
    (h4 : F64 (tb.Tokens + internal.Seconds d * cfg.RatePerMin / 60)) :
    ExactRefill cfg tb now := by
  unfold ExactRefill
  rw [hd]
  exact ⟨h1, h2, h3, h4⟩

/-- When no operation of the refill rounds, the rounded refill is the exact
one. -/
theorem refilled_eq_of_exact (cfg : APIKeyConfig) (tb : TokenBucket) (now : Time)
    (h : ExactRefill cfg tb now) : refilled cfg tb now = internal.refilled cfg tb now := by
  obtain ⟨h1, ⟨h2, _⟩, ⟨h3, _⟩, ⟨h4, _⟩⟩ := h
  unfold Rep at h2 h3 h4
  unfold refilled increment add mul div internal.refilled
  rw [h1, h2, h3, h4]

/-! ## Refills without rounding -/

theorem Seconds_375ms_exact : Seconds 375000000 = internal.Seconds 375000000 := by
  unfold Seconds
  rw [show Int.tdiv 375000000 1000000000 = 0 from by decide,
    show Int.tmod 375000000 1000000000 = 375000000 from by decide]
  simp only [add, div, ofInt]
  push_cast
  rw [rnd_exact 0 0 0 (by norm_num) (by norm_num) (by norm_num) (by norm_num)]
  rw [rnd_exact 375000000 5859375 6 (by norm_num) (by norm_num) (by norm_num) (by norm_num)]
  rw [rnd_exact (375000000 / 1000000000) 3 (-3) (by norm_num) (by norm_num) (by norm_num) (by norm_num)]
  rw [rnd_exact (0 + (375000000 / 1000000000)) 3 (-3) (by norm_num) (by norm_num) (by norm_num) (by norm_num)]
  norm_num [internal.Seconds]

theorem Seconds_750ms_exact : Seconds 750000000 = internal.Seconds 750000000 := by
  unfold Seconds
  rw [show Int.tdiv 750000000 1000000000 = 0 from by decide,
    show Int.tmod 750000000 1000000000 = 750000000 from by decide]
  simp only [add, div, ofInt]
  push_cast
  rw [rnd_exact 0 0 0 (by norm_num) (by norm_num) (by norm_num) (by norm_num)]
  rw [rnd_exact 750000000 5859375 7 (by norm_num) (by norm_num) (by norm_num) (by norm_num)]
  rw [rnd_exact (750000000 / 1000000000) 3 (-2) (by norm_num) (by norm_num) (by norm_num) (by norm_num)]
  rw [rnd_exact (0 + (750000000 / 1000000000)) 3 (-2) (by norm_num) (by norm_num) (by norm_num) (by norm_num)]
  norm_num [internal.Seconds]

theorem exactRefill_375ms : ExactRefill satoshi ⟨0, 0⟩ 375000000 :=
  ExactRefill_of_elapsed satoshi ⟨0, 0⟩ 375000000 375000000 (by decide) Seconds_375ms_exact
    (F64_of_eq _ (75) (-1) (by norm_num) (by norm_num) (by norm_num) (by norm_num [internal.Seconds, satoshi])
      (by norm_num [internal.Seconds, satoshi]) (by norm_num [internal.Seconds, satoshi]))
    (F64_of_eq _ (5) (-3) (by norm_num) (by norm_num) (by norm_num) (by norm_num [internal.Seconds, satoshi])
      (by norm_num [internal.Seconds, satoshi]) (by norm_num [internal.Seconds, satoshi]))
    (F64_of_eq _ (5) (-3) (by norm_num) (by norm_num) (by norm_num) (by norm_num [internal.Seconds, satoshi])
      (by norm_num [internal.Seconds, satoshi]) (by norm_num [internal.Seconds, satoshi]))

theorem exactRefill_375ms_750ms : ExactRefill satoshi ⟨5 / 8, 375000000⟩ 750000000 :=
  ExactRefill_of_elapsed satoshi ⟨5 / 8, 375000000⟩ 750000000 375000000 (by decide) Seconds_375ms_exact
    (F64_of_eq _ (75) (-1) (by norm_num) (by norm_num) (by norm_num) (by norm_num [internal.Seconds, satoshi])
      (by norm_num [internal.Seconds, satoshi]) (by norm_num [internal.Seconds, satoshi]))
    (F64_of_eq _ (5) (-3) (by norm_num) (by norm_num) (by norm_num) (by norm_num [internal.Seconds, satoshi])
      (by norm_num [internal.Seconds, satoshi]) (by norm_num [internal.Seconds, satoshi]))
    (F64_of_eq _ (5) (-2) (by norm_num) (by norm_num) (by norm_num) (by norm_num [internal.Seconds, satoshi])
      (by norm_num [internal.Seconds, satoshi]) (by norm_num [internal.Seconds, satoshi]))

theorem exactRefill_750ms : ExactRefill satoshi ⟨0, 0⟩ 750000000 :=
  ExactRefill_of_elapsed satoshi ⟨0, 0⟩ 750000000 750000000 (by decide) Seconds_750ms_exact
    (F64_of_eq _ (75) (0) (by norm_num) (by norm_num) (by norm_num) (by norm_num [internal.Seconds, satoshi])
      (by norm_num [internal.Seconds, satoshi]) (by norm_num [internal.Seconds, satoshi]))
    (F64_of_eq _ (5) (-2) (by norm_num) (by norm_num) (by norm_num) (by norm_num [internal.Seconds, satoshi])
      (by norm_num [internal.Seconds, satoshi]) (by norm_num [internal.Seconds, satoshi]))
    (F64_of_eq _ (5) (-2) (by norm_num) (by norm_num) (by norm_num) (by norm_num [internal.Seconds, satoshi])
      (by norm_num [internal.Seconds, satoshi]) (by norm_num [internal.Seconds, satoshi]))
/-! ## Denied checks -/

/-- C10, as stated, fails: under the policy 100 per minute, a bucket with 0
tokens last updated at `t0` is denied at `t0 + 20 ms` (stored count
`0.03333333333333333`) and then denied again at `t0 + 600 ms`, where the
refill in two steps gives `0.9999999999999999`; the single call at
`t0 + 600 ms` refills to exactly 1 and is admitted. -/
theorem denied_costs_nothing_counterexample :
    (allowLocal (oneBucket "iot-node-satoshi" ⟨0, 0⟩) "iot-node-satoshi" satoshi
        20000000).1 = false ∧
      (allowLocal (allowLocal (oneBucket "iot-node-satoshi" ⟨0, 0⟩) "iot-node-satoshi" satoshi
        20000000).2 "iot-node-satoshi" satoshi 600000000).1 = false ∧
      (allowLocal (oneBucket "iot-node-satoshi" ⟨0, 0⟩) "iot-node-satoshi" satoshi
        600000000).1 = true := by
  have hb : (oneBucket "iot-node-satoshi" ⟨0, 0⟩).«local» "iot-node-satoshi" = some ⟨0, 0⟩ :=
    store_same _ _ _
  have h1 : allowLocal (oneBucket "iot-node-satoshi" ⟨0, 0⟩) "iot-node-satoshi" satoshi
      20000000 = (false, (oneBucket "iot-node-satoshi" ⟨0, 0⟩).store "iot-node-satoshi"
        ⟨4803839602528529 / 144115188075855872, 20000000⟩) := by
    rw [allowLocal_existing_f64 _ _ _ _ _ hb, refilled_20ms]
    norm_num
  refine ⟨by rw [h1], ?_, ?_⟩
  · rw [h1, allowLocal_existing_f64 _ _ _ _ _ (store_same _ _ _), refilled_20ms_600ms]
    norm_num
  · rw [allowLocal_existing_f64 _ _ _ _ _ hb, refilled_600ms]
    norm_num

/-- C10, amended: for an existing bucket, a rate that is not negative and
instants `t1 ≤ t2`, when the call at `t1` is denied and no binary64 operation
of the three refills involved rounds (at `t1`, at `t2` after `t1`, at `t2`
alone), the call at `t2` that follows returns the same decision and leaves the
same limiter as a call at `t2` made without it; and every denied call stores
the refilled, undecremented count `min(capacity, tokens + elapsed * rate / 60)`
as computed in binary64, with the instant of the call. -/
theorem denied_costs_nothing_f64 (rl : RateLimiter) (key : String) (cfg : APIKeyConfig)
    (tb : TokenBucket) (t1 t2 : Time) (hrate : 0 ≤ cfg.RatePerMin)
    (hb : rl.«local» key = some tb) (h12 : t1 ≤ t2)
    (hden : (allowLocal rl key cfg t1).1 = false) (hx1 : ExactRefill cfg tb t1)
    (hx2 : ExactRefill cfg ⟨refilled cfg tb t1, t1⟩ t2) (hx3 : ExactRefill cfg tb t2) :
    allowLocal (allowLocal rl key cfg t1).2 key cfg t2 = allowLocal rl key cfg t2 ∧
      ∀ now, (allowLocal rl key cfg now).1 = false →
        (allowLocal rl key cfg now).2.«local» key =
          some ⟨internal.min cfg.Capacity (add tb.Tokens
            (div (mul (Seconds (Time.Sub now tb.LastUpdated)) cfg.RatePerMin) 60)), now⟩ := by
  constructor
  · have key1 : refilled cfg ⟨refilled cfg tb t1, t1⟩ t2 = refilled cfg tb t2 := by
      rw [refilled_eq_of_exact _ _ _ hx2, refilled_eq_of_exact _ _ _ hx1,
        refilled_eq_of_exact _ _ _ hx3]
      exact refilled_after_denial cfg tb t1 t2 hrate h12
    rw [allowLocal_existing_f64 _ _ _ _ _ hb] at hden ⊢
    split_ifs at hden with h1
    simp only [h1, if_true]
    rw [allowLocal_existing_f64 _ _ _ _ _ (store_same _ _ _), key1, store_store, store_store]
    rw [allowLocal_existing_f64 _ _ _ _ _ hb]
  · intro now hnow
    rw [allowLocal_existing_f64 _ _ _ _ _ hb] at hnow ⊢
    split_ifs at hnow ⊢ with h1
    simp [store_same, refilled, increment, min_eq, Time.Sub]

theorem denied_costs_nothing_f64_witness :
    (allowLocal (oneBucket "iot-node-satoshi" ⟨0, 0⟩) "iot-node-satoshi" satoshi
        375000000).1 = false ∧
      allowLocal (allowLocal (oneBucket "iot-node-satoshi" ⟨0, 0⟩) "iot-node-satoshi" satoshi
          375000000).2 "iot-node-satoshi" satoshi 750000000 =
        allowLocal (oneBucket "iot-node-satoshi" ⟨0, 0⟩) "iot-node-satoshi" satoshi
          750000000 := by
  have hb : (oneBucket "iot-node-satoshi" ⟨0, 0⟩).«local» "iot-node-satoshi" = some ⟨0, 0⟩ :=
    store_same _ _ _
  have hden : (allowLocal (oneBucket "iot-node-satoshi" ⟨0, 0⟩) "iot-node-satoshi" satoshi
      375000000).1 = false := by
    rw [allowLocal_existing_f64 _ _ _ _ _ hb, refilled_375ms]
    norm_num
  exact ⟨hden, (denied_costs_nothing_f64 (oneBucket "iot-node-satoshi" ⟨0, 0⟩)
    "iot-node-satoshi" satoshi ⟨0, 0⟩ 375000000 750000000 (by norm_num [satoshi]) hb
    (by decide) hden exactRefill_375ms (by rw [refilled_375ms]; exact exactRefill_375ms_750ms)
    exactRefill_750ms).1⟩

/-! ## Elapsed time -/

/-- C5, as stated, fails: `allowLocal` has no clamp.  With 5 tokens last
updated at second 60 and a reading of second 0, under the policy 100 per
minute, the elapsed time is `-60` s, the call is denied and `-95` tokens are
stored, whereas at the reading of second 60 (zero elapsed) the call is
admitted and 4 tokens remain. -/
theorem negative_elapsed_counterexample :
    allowLocal (oneBucket "iot-node-satoshi" ⟨5, 60000000000⟩) "iot-node-satoshi" satoshi 0 =
        (false, (oneBucket "iot-node-satoshi" ⟨5, 60000000000⟩).store "iot-node-satoshi"
          ⟨-95, 0⟩) ∧
      allowLocal (oneBucket "iot-node-satoshi" ⟨5, 60000000000⟩) "iot-node-satoshi" satoshi
          60000000000 =
        (true, (oneBucket "iot-node-satoshi" ⟨5, 60000000000⟩).store "iot-node-satoshi"
          ⟨4, 60000000000⟩) := by
  have hb : (oneBucket "iot-node-satoshi" ⟨5, 60000000000⟩).«local» "iot-node-satoshi" =
      some ⟨5, 60000000000⟩ := store_same _ _ _
  constructor
  · rw [allowLocal_existing_f64 _ _ _ _ _ hb, refilled_backwards]
    norm_num
  · rw [allowLocal_existing_f64 _ _ _ _ _ hb, refilled_zero_elapsed]
    have h4 : sub 5 1 = 4 := by
      unfold sub
      rw [rnd_exact (5 - 1) 1 2 (by norm_num) (by norm_num) (by norm_num) (by norm_num)]
      norm_num
    norm_num [h4]

/-- C5, amended: `allowLocal` applies no clamp; the elapsed time it uses is
`now.Sub(LastUpdated)` for two readings of `time.Now()`, which is never
negative.  For every existing bucket holding a binary64 count, every reading
`now` not earlier than `LastUpdated` and a rate that is not negative, the
elapsed seconds are not negative, the refilled count is not below the count
`min(capacity, tokens)` that the call computes at zero elapsed time, and a
call admitted at zero elapsed time is admitted at `now`. -/
theorem elapsed_never_costs_f64 (rl : RateLimiter) (key : String) (cfg : APIKeyConfig)
    (tb : TokenBucket) (now : Time) (hrate : 0 ≤ cfg.RatePerMin)
    (hb : rl.«local» key = some tb) (htok : F64 tb.Tokens) (hnow : tb.LastUpdated ≤ now) :
    0 ≤ Seconds (Time.Sub now tb.LastUpdated) ∧
      refilled cfg tb tb.LastUpdated = Min.min cfg.Capacity tb.Tokens ∧
      Min.min cfg.Capacity tb.Tokens ≤ refilled cfg tb now ∧
      ((allowLocal rl key cfg tb.LastUpdated).1 = true → (allowLocal rl key cfg now).1 = true) := by
  have hd : 0 ≤ now - tb.LastUpdated := sub_nonneg.mpr hnow
  have h0 : refilled cfg tb tb.LastUpdated = Min.min cfg.Capacity tb.Tokens := by
    unfold refilled
    rw [sub_self, increment_zero, add_zero_right htok.1]
  have hle : Min.min cfg.Capacity tb.Tokens ≤ refilled cfg tb now := by
    unfold refilled add
    refine min_le_min_left _ (le_rnd htok.1 ?_)
    have := increment_nonneg cfg hrate hd
    linarith
  refine ⟨Seconds_nonneg_f64 hd, h0, hle, ?_⟩
  rw [allowLocal_existing_f64 _ _ _ _ _ hb, allowLocal_existing_f64 _ _ _ _ _ hb, h0]
  intro h
  by_cases h1 : Min.min cfg.Capacity tb.Tokens < 1
  · simp [h1] at h
  · have : ¬ refilled cfg tb now < 1 := not_lt.mpr (le_trans (not_lt.mp h1) hle)
    simp [this]

theorem elapsed_never_costs_f64_witness :
    0 ≤ Seconds (Time.Sub 1000000000 (⟨5, 0⟩ : TokenBucket).LastUpdated) ∧
      (allowLocal (oneBucket "iot-node-satoshi" ⟨5, 0⟩) "iot-node-satoshi" satoshi
        1000000000).1 = true := by
  have hb : (oneBucket "iot-node-satoshi" ⟨5, 0⟩).«local» "iot-node-satoshi" = some ⟨5, 0⟩ :=
    store_same _ _ _
  have h := elapsed_never_costs_f64 (oneBucket "iot-node-satoshi" ⟨5, 0⟩) "iot-node-satoshi"
    satoshi ⟨5, 0⟩ 1000000000 (by norm_num [satoshi]) hb
    (F64_of_eq _ 5 0 (by norm_num) (by norm_num) (by norm_num) (by norm_num) (by norm_num)
      (by norm_num)) (by decide)
  refine ⟨h.1, h.2.2.2 ?_⟩
  rw [allowLocal_existing_f64 _ _ _ _ _ hb, h.2.1]
  norm_num [satoshi]

/-! ## Timestamps and increments of the script, evaluated -/

theorem epochSeconds_t0 : epochSeconds 1700000000000000000 = 1700000000 := by
  unfold epochSeconds
  simp only [div, ofInt]
  push_cast
  rw [rnd_exact 1700000000000000000 12969970703125 17 (by norm_num) (by norm_num) (by norm_num) (by norm_num)]
  rw [rnd_exact (1700000000000000000 / 1000000000) 6640625 8 (by norm_num) (by norm_num) (by norm_num) (by norm_num)]
  norm_num

theorem epochSeconds_t0_300ms : epochSeconds 1700000000300000000 = 7130316801258291 / 4194304 := by
  unfold epochSeconds
  simp only [div, ofInt]
  push_cast
  rw [rnd_exact 1700000000300000000 6640625001171875 8 (by norm_num) (by norm_num) (by norm_num) (by norm_num)]
  rw [rnd_eval (1700000000300000000 / 1000000000) (7130316801258291 / 4194304) 30 7130316801258291 (by norm_num) (by norm_num) (by norm_num) (by norm_num) (by norm_num) (by norm_num)]

theorem epochSeconds_t0_500ms : epochSeconds 1700000000500000000 = 3400000001 / 2 := by
  unfold epochSeconds
  simp only [div, ofInt]
  push_cast
  rw [rnd_exact 1700000000500000000 6640625001953125 8 (by norm_num) (by norm_num) (by norm_num) (by norm_num)]
  rw [rnd_exact (1700000000500000000 / 1000000000) 3400000001 (-1) (by norm_num) (by norm_num) (by norm_num) (by norm_num)]
  norm_num

theorem scriptIncrement_300ms :
    scriptIncrement satoshi (7130316801258291 / 4194304) (1700000000) = 9007197823085227 / 18014398509481984 := by
  unfold scriptIncrement
  simp only [sub, mul, div, satoshi]
  rw [rnd_exact ((7130316801258291 / 4194304) - 1700000000) 1258291 (-22) (by norm_num) (by norm_num) (by norm_num) (by norm_num)]
  rw [max_eq_right (show (0 : ℚ) ≤ (7130316801258291 / 4194304) - 1700000000 from by norm_num)]
  rw [rnd_eval (100 / 60) (7505999378950827 / 4503599627370496) 0 7505999378950827 (by norm_num) (by norm_num) (by norm_num) (by norm_num) (by norm_num) (by norm_num)]
  rw [rnd_eval (((7130316801258291 / 4194304) - 1700000000) * (7505999378950827 / 4503599627370496)) (9007197823085227 / 18014398509481984) (-2) 9007197823085227 (by norm_num) (by norm_num) (by norm_num) (by norm_num) (by norm_num) (by norm_num)]

theorem scriptIncrement_500ms :
    scriptIncrement satoshi (3400000001 / 2) (1700000000) = 7505999378950827 / 9007199254740992 := by
  unfold scriptIncrement
  simp only [sub, mul, div, satoshi]
  rw [rnd_exact ((3400000001 / 2) - 1700000000) 1 (-1) (by norm_num) (by norm_num) (by norm_num) (by norm_num)]
  rw [max_eq_right (show (0 : ℚ) ≤ (3400000001 / 2) - 1700000000 from by norm_num)]
  rw [rnd_eval (100 / 60) (7505999378950827 / 4503599627370496) 0 7505999378950827 (by norm_num) (by norm_num) (by norm_num) (by norm_num) (by norm_num) (by norm_num)]
  rw [rnd_exact (((3400000001 / 2) - 1700000000) * (7505999378950827 / 4503599627370496)) 7505999378950827 (-53) (by norm_num) (by norm_num) (by norm_num) (by norm_num)]
  norm_num

theorem add_half_scriptIncrement_300ms : add (1 / 2) (9007197823085227 / 18014398509481984) = 4503599269456555 / 4503599627370496 := by
  unfold add
  rw [rnd_eval_tie ((1 / 2) + (9007197823085227 / 18014398509481984)) (4503599269456555 / 4503599627370496) (-1) 9007198538913110 (by norm_num) (by norm_num) (by norm_num) (by decide) (by norm_num [abs_of_pos, abs_of_neg]) (by norm_num)]

theorem add_half_increment_500ms : add (1 / 2) (7505999378950827 / 9007199254740992) = 3002399751580331 / 2251799813685248 := by
  unfold add
  rw [rnd_eval_tie ((1 / 2) + (7505999378950827 / 9007199254740992)) (3002399751580331 / 2251799813685248) 0 6004799503160662 (by norm_num) (by norm_num) (by norm_num) (by decide) (by norm_num [abs_of_pos, abs_of_neg]) (by norm_num)]

theorem sub_one_500ms : sub (3002399751580331 / 2251799813685248) (1) = 750599937895083 / 2251799813685248 := by
  unfold sub
  rw [rnd_exact ((3002399751580331 / 2251799813685248) - 1) 750599937895083 (-51) (by norm_num) (by norm_num) (by norm_num) (by norm_num)]
  norm_num

theorem increment_500ms : increment satoshi 500000000 = 7505999378950827 / 9007199254740992 := by
  unfold increment Seconds
  rw [show Int.tdiv 500000000 1000000000 = 0 from by decide,
    show Int.tmod 500000000 1000000000 = 500000000 from by decide]
  simp only [add, div, mul, ofInt, satoshi]
  push_cast
  rw [rnd_exact 0 0 0 (by norm_num) (by norm_num) (by norm_num) (by norm_num)]
  rw [rnd_exact 500000000 1953125 8 (by norm_num) (by norm_num) (by norm_num) (by norm_num)]
  rw [rnd_exact (500000000 / 1000000000) 1 (-1) (by norm_num) (by norm_num) (by norm_num) (by norm_num)]
  rw [rnd_exact (0 + (500000000 / 1000000000)) 1 (-1) (by norm_num) (by norm_num) (by norm_num) (by norm_num)]
  rw [rnd_exact ((0 + (500000000 / 1000000000)) * 100) 25 1 (by norm_num) (by norm_num) (by norm_num) (by norm_num)]
  rw [rnd_eval (((0 + (500000000 / 1000000000)) * 100) / 60) (7505999378950827 / 9007199254740992) (-1) 7505999378950827 (by norm_num) (by norm_num) (by norm_num) (by norm_num) (by norm_num) (by norm_num)]

theorem refilled_t0_300ms :
    refilled satoshi ⟨1 / 2, 1700000000000000000⟩ 1700000000300000000 = 1 := by
  rw [refilled_of_elapsed satoshi ⟨1 / 2, 1700000000000000000⟩ 1700000000300000000 (300000000) (by decide)]
  unfold increment Seconds
  rw [show Int.tdiv (300000000) 1000000000 = 0 from by decide,
    show Int.tmod (300000000) 1000000000 = 300000000 from by decide]
  simp only [add, div, mul, ofInt, satoshi]
  push_cast
  rw [rnd_exact 0 0 0 (by norm_num) (by norm_num) (by norm_num) (by norm_num)]
  rw [rnd_exact 300000000 1171875 8 (by norm_num) (by norm_num) (by norm_num) (by norm_num)]
  rw [rnd_eval (300000000 / 1000000000) (5404319552844595 / 18014398509481984) (-2) 5404319552844595 (by norm_num) (by norm_num) (by norm_num) (by norm_num) (by norm_num) (by norm_num)]
  rw [rnd_exact (0 + (5404319552844595 / 18014398509481984)) 5404319552844595 (-54) (by norm_num) (by norm_num) (by norm_num) (by norm_num)]
  rw [rnd_eval ((0 + (5404319552844595 / 18014398509481984)) * 100) 30 4 8444249301319680 (by norm_num) (by norm_num) (by norm_num) (by norm_num) (by norm_num) (by norm_num)]
  rw [rnd_exact (30 / 60) 1 (-1) (by norm_num) (by norm_num) (by norm_num) (by norm_num)]
  rw [rnd_exact ((1 / 2) + (30 / 60)) 1 0 (by norm_num) (by norm_num) (by norm_num) (by norm_num)]
  norm_num

theorem Seconds_500ms : Seconds 500000000 = 1 / 2 := by
  unfold Seconds
  rw [show Int.tdiv 500000000 1000000000 = 0 from by decide,
    show Int.tmod 500000000 1000000000 = 500000000 from by decide]
  simp only [add, div, ofInt]
  push_cast
  rw [rnd_exact 0 0 0 (by norm_num) (by norm_num) (by norm_num) (by norm_num)]
  rw [rnd_exact 500000000 1953125 8 (by norm_num) (by norm_num) (by norm_num) (by norm_num)]
  rw [rnd_exact (500000000 / 1000000000) 1 (-1) (by norm_num) (by norm_num) (by norm_num) (by norm_num)]
  rw [rnd_exact (0 + (500000000 / 1000000000)) 1 (-1) (by norm_num) (by norm_num) (by norm_num) (by norm_num)]
  norm_num

/-! ## The script against the in-memory limiter -/

theorem luaScript_present (kv : RedisStore) (key ts_key : String) (now rate capacity : ℚ)
    (tokens last_ts : ℚ) (h1 : kv key = some tokens) (h2 : kv ts_key = some last_ts) :
    luaScript kv key ts_key now rate capacity =
      if Min.min capacity (add tokens (mul (max 0 (sub now last_ts)) rate)) < 1 then
        .ok (0, (kv.SET key (Min.min capacity
          (add tokens (mul (max 0 (sub now last_ts)) rate)))).SET ts_key now)
      else
        .ok (1, (kv.SET key (sub (Min.min capacity
          (add tokens (mul (max 0 (sub now last_ts)) rate))) 1)).SET ts_key now) := by
  simp [luaScript, h1, h2]

theorem luaScript_absent (kv : RedisStore) (key ts_key : String) (now rate capacity : ℚ)
    (hC : Rep capacity) (h1 : kv key = none) :
    luaScript kv key ts_key now rate capacity =
      if capacity < 1 then .ok (0, (kv.SET key capacity).SET ts_key now)
      else .ok (1, (kv.SET key (sub capacity 1)).SET ts_key now) := by
  have hz : mul (max 0 (sub now now)) rate = 0 := by
    simp [sub, mul, rnd_zero]
  simp [luaScript, h1, hz, add_zero_right hC]

theorem allowRedis_of_script (w : World) (c : RedisClient) (key : String) (cfg : APIKeyConfig)
    (now : Time) (b : Bool) (kv1 : RedisStore) (hc : w.redisClient = some c)
    (hs : luaScript w.redis ("rl:" ++ key) ("rl:" ++ key ++ ":ts") (epochSeconds now)
      (div cfg.RatePerMin 60) cfg.Capacity = .ok (if b then 1 else 0, kv1)) :
    allowRedis w key cfg now true =
      .ok (b, { w with redis := kv1, evalCalls := w.evalCalls + 1 }) := by
  simp only [allowRedis, hc, Eval, if_true, hs]
  cases b <;> simp

/-- The script and `allowLocal` on corresponding states, when the two refill
increments are the same binary64 value. -/
theorem luaScript_allowLocal_f64 (rl : RateLimiter) (kv : RedisStore) (key : String)
    (cfg : APIKeyConfig) (now : Time) (hC : Rep cfg.Capacity)
    (htok : kv ("rl:" ++ key) = (rl.«local» key).map (fun tb => tb.Tokens))
    (hts : kv ("rl:" ++ key ++ ":ts") =
      (rl.«local» key).map (fun tb => epochSeconds tb.LastUpdated))
    (hcap : rl.«local» key = none → 1 ≤ cfg.Capacity)
    (hinc : ∀ tb, rl.«local» key = some tb →
      scriptIncrement cfg (epochSeconds now) (epochSeconds tb.LastUpdated) =
        increment cfg (now - tb.LastUpdated)) :
    ∃ tb1, (allowLocal rl key cfg now).2.«local» key = some tb1 ∧ tb1.LastUpdated = now ∧
      luaScript kv ("rl:" ++ key) ("rl:" ++ key ++ ":ts") (epochSeconds now)
          (div cfg.RatePerMin 60) cfg.Capacity =
        .ok (if (allowLocal rl key cfg now).1 then 1 else 0,
          (kv.SET ("rl:" ++ key) tb1.Tokens).SET ("rl:" ++ key ++ ":ts") (epochSeconds now)) := by
  cases hb : rl.«local» key with
  | none =>
    rw [hb] at htok
    have hl := allowLocal_absent_f64 rl key cfg now hb
    have hnot : ¬ cfg.Capacity < 1 := not_lt.mpr (hcap hb)
    refine ⟨⟨sub cfg.Capacity 1, now⟩, ?_, rfl, ?_⟩
    · rw [hl]
      exact store_same _ _ _
    · rw [luaScript_absent _ _ _ _ _ _ hC htok, hl]
      simp [hnot]
  | some tb =>
    rw [hb] at htok hts
    have hl := allowLocal_existing_f64 rl key cfg now tb hb
    have hr : Min.min cfg.Capacity (add tb.Tokens (mul (max 0 (sub (epochSeconds now)
        (epochSeconds tb.LastUpdated))) (div cfg.RatePerMin 60))) = refilled cfg tb now := by
      have := hinc tb hb
      unfold scriptIncrement at this
      rw [this]
      rfl
    rw [luaScript_present _ _ _ _ _ _ tb.Tokens (epochSeconds tb.LastUpdated) htok hts, hr, hl]
    by_cases h1 : refilled cfg tb now < 1
    · refine ⟨⟨refilled cfg tb now, now⟩, ?_, rfl, ?_⟩
      · rw [if_pos h1]
        exact store_same _ _ _
      · simp [h1]
    · refine ⟨⟨sub (refilled cfg tb now) 1, now⟩, ?_, rfl, ?_⟩
      · rw [if_neg h1]
        exact store_same _ _ _
      · simp [h1]

/-- C7, as stated, fails.  With capacity `1/2` and no stored state the script
replies 0 and writes `1/2` tokens while `allowLocal` admits.  With the
registered policy 100 per minute, `1/2` token stored at the epoch second
1700000000 and the clock 300 ms later, the script measures the elapsed time on
the timestamps `float64(UnixNano) / 1e9` as `0.2999999523162842` s, refills to
`0.9999999205271404` and replies 0, while `allowLocal` measures 0.3 s, refills
to 1 and admits. -/
theorem luaScript_differs_f64_counterexample :
    luaScript (fun _ => none) ("rl:" ++ "k") ("rl:" ++ "k" ++ ":ts") (epochSeconds 0)
        (div 0 60) (1 / 2) =
        .ok (0, (RedisStore.SET (fun _ => none) ("rl:" ++ "k") (1 / 2)).SET
          ("rl:" ++ "k" ++ ":ts") (epochSeconds 0)) ∧
      (allowLocal emptyLimiter "k" ⟨0, 1 / 2⟩ 0).1 = true ∧
      luaScript (sharedBucket "iot-node-satoshi" (1 / 2) (epochSeconds 1700000000000000000))
        ("rl:" ++ "iot-node-satoshi") ("rl:" ++ "iot-node-satoshi" ++ ":ts")
        (epochSeconds 1700000000300000000) (div satoshi.RatePerMin 60) satoshi.Capacity =
        .ok (0, ((sharedBucket "iot-node-satoshi" (1 / 2)
          (epochSeconds 1700000000000000000)).SET ("rl:" ++ "iot-node-satoshi")
          (4503599269456555 / 4503599627370496)).SET ("rl:" ++ "iot-node-satoshi" ++ ":ts")
          (epochSeconds 1700000000300000000)) ∧
      (allowLocal (oneBucket "iot-node-satoshi" ⟨1 / 2, 1700000000000000000⟩)
        "iot-node-satoshi" satoshi 1700000000300000000).1 = true := by
  refine ⟨?_, ?_, ?_, ?_⟩
  · rw [luaScript_absent _ _ _ _ _ _
      (Rep_of_eq _ 1 (-1) (by norm_num) (by norm_num) (by norm_num) (by norm_num)) rfl]
    norm_num
  · rw [allowLocal_absent_f64 emptyLimiter "k" _ _ rfl]
  · have h1 : sharedBucket "iot-node-satoshi" (1 / 2) (epochSeconds 1700000000000000000)
        ("rl:" ++ "iot-node-satoshi") = some (1 / 2) := by
      simp [sharedBucket, RedisStore.SET]
    have h2 : sharedBucket "iot-node-satoshi" (1 / 2) (epochSeconds 1700000000000000000)
        ("rl:" ++ "iot-node-satoshi" ++ ":ts") = some (epochSeconds 1700000000000000000) := by
      simp [sharedBucket, RedisStore.SET]
    have hi : mul (max 0 (sub (epochSeconds 1700000000300000000)
        (epochSeconds 1700000000000000000))) (div satoshi.RatePerMin 60) =
        9007197823085227 / 18014398509481984 := by
      have := scriptIncrement_300ms
      unfold scriptIncrement at this
      rw [epochSeconds_t0_300ms, epochSeconds_t0]
      exact this
    rw [luaScript_present _ _ _ _ _ _ _ _ h1 h2, hi, add_half_scriptIncrement_300ms]
    norm_num [satoshi]
  · rw [allowLocal_existing_f64 (oneBucket "iot-node-satoshi" ⟨1 / 2, 1700000000000000000⟩)
      _ _ _ ⟨1 / 2, 1700000000000000000⟩ (store_same _ _ _), refilled_t0_300ms]
    norm_num

/-- C7, amended: for a policy whose capacity is a binary64 value, a key whose
state is absent in both stores (and then capacity at least 1) or present in
both with the same token count and, as timestamp, the epoch seconds
`float64(UnixNano) / 1e9` of `LastUpdated`, and a clock reading `now`: whenever
the refill increment the script computes, `max(0, now_s - last_s) * (R / 60)`
on those timestamps, is the binary64 value `allowLocal` computes from the
`Duration`, `Seconds * R / 60`, without overflow of the product, the script
replies 1 exactly when `allowLocal`
returns true (so `allowRedis` returns the decision of `allowLocal`), writes the
token count `allowLocal` stores and writes the epoch seconds of `now`, the
instant `allowLocal` stores. -/
theorem luaScript_agrees_f64 (rl : RateLimiter) (kv : RedisStore) (key : String)
    (cfg : APIKeyConfig) (now : Time) (hC : F64 cfg.Capacity)
    (htok : kv ("rl:" ++ key) = (rl.«local» key).map (fun tb => tb.Tokens))
    (hts : kv ("rl:" ++ key ++ ":ts") =
      (rl.«local» key).map (fun tb => epochSeconds tb.LastUpdated))
    (hcap : rl.«local» key = none → 1 ≤ cfg.Capacity)
    (hinc : ∀ tb, rl.«local» key = some tb → SameIncrement cfg tb now) :
    ∃ tb1, (allowLocal rl key cfg now).2.«local» key = some tb1 ∧ tb1.LastUpdated = now ∧
      luaScript kv ("rl:" ++ key) ("rl:" ++ key ++ ":ts") (epochSeconds now)
          (div cfg.RatePerMin 60) cfg.Capacity =
        .ok (if (allowLocal rl key cfg now).1 then 1 else 0,
          (kv.SET ("rl:" ++ key) tb1.Tokens).SET ("rl:" ++ key ++ ":ts")
            (epochSeconds now)) ∧
      ∀ (w : World) (c : RedisClient), w.redis = kv → w.redisClient = some c →
        allowRedis w key cfg now true =
          .ok ((allowLocal rl key cfg now).1,
            { w with
              redis := (kv.SET ("rl:" ++ key) tb1.Tokens).SET ("rl:" ++ key ++ ":ts")
                (epochSeconds now)
              evalCalls := w.evalCalls + 1 }) := by
  obtain ⟨tb1, h1, h2, h3⟩ := luaScript_allowLocal_f64 rl kv key cfg now hC.1 htok hts hcap
    (fun tb htb => (hinc tb htb).1)
  refine ⟨tb1, h1, h2, h3, ?_⟩
  intro w c hw hc
  subst hw
  exact allowRedis_of_script w c key cfg now _ _ hc h3

theorem luaScript_agrees_f64_witness :
    (allowLocal (oneBucket "iot-node-satoshi" ⟨1 / 2, 1700000000000000000⟩)
        "iot-node-satoshi" satoshi 1700000000500000000).1 = true ∧
      luaScript (sharedBucket "iot-node-satoshi" (1 / 2) (epochSeconds 1700000000000000000))
        ("rl:" ++ "iot-node-satoshi") ("rl:" ++ "iot-node-satoshi" ++ ":ts")
        (epochSeconds 1700000000500000000) (div satoshi.RatePerMin 60) satoshi.Capacity =
        .ok (1, ((sharedBucket "iot-node-satoshi" (1 / 2)
          (epochSeconds 1700000000000000000)).SET ("rl:" ++ "iot-node-satoshi")
          (750599937895083 / 2251799813685248)).SET ("rl:" ++ "iot-node-satoshi" ++ ":ts")
          (epochSeconds 1700000000500000000)) := by
  have hb : (oneBucket "iot-node-satoshi" ⟨1 / 2, 1700000000000000000⟩).«local»
      "iot-node-satoshi" = some ⟨1 / 2, 1700000000000000000⟩ := store_same _ _ _
  have hr : refilled satoshi ⟨1 / 2, 1700000000000000000⟩ 1700000000500000000 =
      3002399751580331 / 2251799813685248 := by
    rw [refilled_of_elapsed satoshi ⟨1 / 2, 1700000000000000000⟩ 1700000000500000000
      500000000 (by decide), increment_500ms]
    simp only []
    rw [add_half_increment_500ms]
    norm_num [satoshi]
  have hl : allowLocal (oneBucket "iot-node-satoshi" ⟨1 / 2, 1700000000000000000⟩)
      "iot-node-satoshi" satoshi 1700000000500000000 =
      (true, (oneBucket "iot-node-satoshi" ⟨1 / 2, 1700000000000000000⟩).store
        "iot-node-satoshi" ⟨750599937895083 / 2251799813685248, 1700000000500000000⟩) := by
    rw [allowLocal_existing_f64 _ _ _ _ _ hb, hr, sub_one_500ms]
    norm_num
  obtain ⟨tb1, h1, _, h3, _⟩ := luaScript_agrees_f64
    (oneBucket "iot-node-satoshi" ⟨1 / 2, 1700000000000000000⟩)
    (sharedBucket "iot-node-satoshi" (1 / 2) (epochSeconds 1700000000000000000))
    "iot-node-satoshi" satoshi 1700000000500000000 F64_satoshi_capacity
    (by rw [hb]; simp [sharedBucket, RedisStore.SET])
    (by rw [hb]; simp [sharedBucket, RedisStore.SET])
    (by intro h; rw [hb] at h; cases h)
    (by
      intro tb htb
      rw [hb] at htb
      cases htb
      unfold SameIncrement
      simp only []
      rw [epochSeconds_t0_500ms, epochSeconds_t0, scriptIncrement_500ms,
        show (1700000000500000000 : Time) - 1700000000000000000 = 500000000 from by decide,
        increment_500ms, Seconds_500ms]
      norm_num [satoshi])
  rw [hl] at h1 h3
  rw [store_same] at h1
  cases h1
  exact ⟨by rw [hl], by simpa using h3⟩


end float64

end internal
